import Mathlib

/-!
# Verification of the sales-data-warehouse ETL pipeline

A shallow embedding of the ETL core of this repository
(`utils/etl_utils.py`, table layouts from `utils/db_setup.py`) together
with proofs of the specified properties of the staging load, the
conflict-merging upserts and the pipeline orchestrator.

Modelling conventions:
* SQL values are opaque (`Option String`; `none` models SQL NULL).
  Store-side typing and NOT NULL checks are outside the model.
* A table is a list of rows in physical order; `INSERT` appends,
  `ON CONFLICT ... DO UPDATE` rewrites the conflicting row in place.
* Each Python function opens its own connection and commits once at the
  end; an exception before `commit()` means the implicit psycopg2
  transaction is rolled back, so the function's visible effect on the
  store is either all of its statements or none of them.  The embedded
  functions return the committed store, mirroring exactly that.
* PostgreSQL's `INSERT ... ON CONFLICT DO UPDATE` raises
  `cannot affect row a second time` when two source rows hit the same
  key within one statement; this is the `MergeErr.dupAffect` error.
  A foreign-key violation is `MergeErr.fkViolation`.
-/

namespace Etl

/-- An SQL value: `none` is NULL, `some v` a (string-rendered) value. -/
abbrev Val := Option String

/-- A table row: values in column order. -/
abbrev Row := List Val

/-- A table: rows in physical order. -/
abbrev Table := List Row

/-- Shape of one upsert target: column count, primary-key column index,
and the column indices rewritten by the `ON CONFLICT ... DO UPDATE SET`
clause of the corresponding statement in `etl_utils.py`. -/
structure TableSpec where
  ncols : Nat
  keyIdx : Nat
  updatable : List Nat
deriving DecidableEq, Repr

/-- The primary-key value of a row. -/
def rowKey (spec : TableSpec) (r : Row) : Val :=
  r.getD spec.keyIdx none

/-- Effect of `DO UPDATE SET c = EXCLUDED.c` for the updatable columns:
updatable columns take the staging (`EXCLUDED`) value, all other columns
keep the target row's value. -/
def updateRow (spec : TableSpec) (old excluded : Row) : Row :=
  (List.range spec.ncols).map fun i =>
    if i ∈ spec.updatable then excluded.getD i none else old.getD i none

/-- First row of a table whose key column holds `k`. -/
def findRow (spec : TableSpec) (k : Val) : List Row → Option Row
  | [] => none
  | o :: t => if rowKey spec o = k then some o else findRow spec k t

/-- The key column (index 0 for every table of this schema) of each row. -/
def keysOf (t : Table) : List Val :=
  t.map fun r => r.getD 0 none

/-- Foreign-key constraints: pairs of (referencing column index, list of
key values present in the referenced dimension table). -/
abbrev Fks := List (Nat × List Val)

/-- A row satisfies the foreign-key constraints. -/
def fkHolds (fks : Fks) (r : Row) : Prop :=
  ∀ p ∈ fks, r.getD p.1 none ∈ p.2

instance (fks : Fks) (r : Row) : Decidable (fkHolds fks r) := by
  unfold fkHolds; infer_instance

/-- Errors of a bulk `INSERT ... ON CONFLICT DO UPDATE` statement. -/
inductive MergeErr where
  /-- `ON CONFLICT DO UPDATE command cannot affect row a second time`. -/
  | dupAffect
  /-- a foreign-key constraint is violated by an inserted/updated row. -/
  | fkViolation
deriving DecidableEq, Repr

/-- One bulk `INSERT ... SELECT ... ON CONFLICT (key) DO UPDATE SET ...`
statement, processing the source rows in order. `touched` is the set of
keys already affected by this statement (PostgreSQL forbids affecting a
row twice). On a key conflict the target row is rewritten in place via
`updateRow`; otherwise the source row is appended. Every written row
must satisfy the foreign-key constraints `fks`. -/
def upsertAll (spec : TableSpec) (fks : Fks) :
    List Val → Table → List Row → Except MergeErr Table
  | _, tgt, [] => .ok tgt
  | touched, tgt, r :: rs =>
    if rowKey spec r ∈ touched then .error .dupAffect
    else
      match findRow spec (rowKey spec r) tgt with
      | some o =>
        if fkHolds fks (updateRow spec o r) then
          upsertAll spec fks (rowKey spec r :: touched)
            (tgt.map fun t =>
              if rowKey spec t = rowKey spec r then updateRow spec t r else t)
            rs
        else .error .fkViolation
      | none =>
        if fkHolds fks r then
          upsertAll spec fks (rowKey spec r :: touched) (tgt ++ [r]) rs
        else .error .fkViolation

/-- The row a source row would write: the in-place update of the
conflicting target row if the key exists, else the source row itself. -/
def applyTo (spec : TableSpec) (tgt : Table) (r : Row) : Row :=
  match findRow spec (rowKey spec r) tgt with
  | some o => updateRow spec o r
  | none => r

/-- Target rows after the in-place updates of a successful upsert. -/
def updatedTable (spec : TableSpec) (rows : List Row) : Table → Table
  | [] => []
  | o :: t =>
    (match findRow spec (rowKey spec o) rows with
     | some r => updateRow spec o r
     | none => o) :: updatedTable spec rows t

/-- Source rows whose key is absent from the target (these get appended
by a successful upsert, in source order). -/
def insertedRows (spec : TableSpec) (tgt : Table) : List Row → List Row
  | [] => []
  | r :: rs =>
    if findRow spec (rowKey spec r) tgt = none then
      r :: insertedRows spec tgt rs
    else insertedRows spec tgt rs

/-- Closed form of the table produced by a successful upsert. -/
def mergeResult (spec : TableSpec) (rows : List Row) (tgt : Table) : Table :=
  updatedTable spec rows tgt ++ insertedRows spec tgt rows

/-! ## Concrete table shapes

Column layouts are from `create_dimension_tables`, `create_fact_tables`
and `create_staging_tables` in `utils/db_setup.py`; the key column and
the updated column set of each upsert are from `load_dimension_tables`
and `load_fact_tables` in `utils/etl_utils.py`.  In every table the
primary key is column 0; `created_date` (column 7 of `dim_product`,
column 11 of `dim_customer` and `dim_store`) is absent from the
`DO UPDATE SET` list of its statement. -/

/-- `dim_product`: conflict key `product_id`; updates every column except
`product_id` (0) and `created_date` (7). -/
def productSpec : TableSpec := ⟨9, 0, [1, 2, 3, 4, 5, 6, 8]⟩

/-- `dim_customer`: conflict key `customer_id`; updates every column
except `customer_id` (0) and `created_date` (11). -/
def customerSpec : TableSpec := ⟨13, 0, [1, 2, 3, 4, 5, 6, 7, 8, 9, 10, 12]⟩

/-- `dim_time`: conflict key `date_id`; updates every other column. -/
def timeSpec : TableSpec := ⟨11, 0, [1, 2, 3, 4, 5, 6, 7, 8, 9, 10]⟩

/-- `dim_store`: conflict key `store_id`; updates every column except
`store_id` (0) and `created_date` (11). -/
def storeSpec : TableSpec := ⟨13, 0, [1, 2, 3, 4, 5, 6, 7, 8, 9, 10, 12]⟩

/-- `fact_sales`: conflict key `sale_id`; updates every other column. -/
def salesSpec : TableSpec := ⟨12, 0, [1, 2, 3, 4, 5, 6, 7, 8, 9, 10, 11]⟩

/-- `fact_inventory`: conflict key `inventory_id`; updates every other
column. -/
def inventorySpec : TableSpec := ⟨11, 0, [1, 2, 3, 4, 5, 6, 7, 8, 9, 10]⟩

/-- The specs of the four dimension upserts, in statement order. -/
def dimSpecs : List TableSpec := [productSpec, customerSpec, timeSpec, storeSpec]

/-- The six staging tables created by `create_staging_tables`. -/
inductive StgTable where
  | products | customers | timeDim | stores | sales | inventory
deriving DecidableEq, Repr

/-- Column names of each staging table (`create_staging_tables`). -/
def stgCols : StgTable → List String
  | .products =>
    ["product_id", "product_name", "category", "subcategory", "brand",
     "unit_price", "cost", "created_date", "modified_date"]
  | .customers =>
    ["customer_id", "first_name", "last_name", "email", "phone", "address",
     "city", "state", "country", "postal_code", "customer_segment",
     "created_date", "modified_date"]
  | .timeDim =>
    ["date_id", "full_date", "day_of_week", "day_of_month", "day_of_year",
     "week_of_year", "month", "quarter", "year", "is_holiday", "holiday_name"]
  | .stores =>
    ["store_id", "store_name", "address", "city", "state", "country",
     "postal_code", "manager", "opening_date", "store_type", "store_size",
     "created_date", "modified_date"]
  | .sales =>
    ["sale_id", "date_id", "product_id", "customer_id", "store_id",
     "quantity", "unit_price", "total_amount", "discount_amount",
     "net_amount", "payment_method", "transaction_time"]
  | .inventory =>
    ["inventory_id", "date_id", "product_id", "store_id",
     "beginning_quantity", "ending_quantity", "units_received", "units_sold",
     "units_damaged", "reorder_point", "reorder_quantity"]

/-- The persistent store: the six staging tables, four dimension tables
and two fact tables of the warehouse. -/
structure Store where
  stg_products : Table
  stg_customers : Table
  stg_time_dimension : Table
  stg_stores : Table
  stg_sales : Table
  stg_inventory : Table
  dim_product : Table
  dim_customer : Table
  dim_time : Table
  dim_store : Table
  fact_sales : Table
  fact_inventory : Table
deriving DecidableEq, Repr

/-- The staging container named by a `StgTable`. -/
def Store.getStg (s : Store) : StgTable → Table
  | .products => s.stg_products
  | .customers => s.stg_customers
  | .timeDim => s.stg_time_dimension
  | .stores => s.stg_stores
  | .sales => s.stg_sales
  | .inventory => s.stg_inventory

/-- Overwrite one staging container. -/
def Store.setStg (s : Store) : StgTable → Table → Store
  | .products, v => { s with stg_products := v }
  | .customers, v => { s with stg_customers := v }
  | .timeDim, v => { s with stg_time_dimension := v }
  | .stores, v => { s with stg_stores := v }
  | .sales, v => { s with stg_sales := v }
  | .inventory, v => { s with stg_inventory := v }

/-! ## Staging load (`load_csv_to_staging`) -/

/-- A parsed source file, as produced by `pd.read_csv`: a header naming
the columns, and rectangular data rows of strings. -/
structure Csv where
  header : List String
  rows : List (List String)
deriving DecidableEq, Repr

/-- The generated `INSERT INTO stg (header columns) VALUES ...` statement
succeeds: every listed column exists in the staging table, no column is
listed twice, and every tuple has one value per listed column. -/
def csvOk (csv : Csv) (t : StgTable) : Prop :=
  csv.header.Nodup ∧ (∀ c ∈ csv.header, c ∈ stgCols t) ∧
    ∀ r ∈ csv.rows, r.length = csv.header.length

instance (csv : Csv) (t : StgTable) : Decidable (csvOk csv t) := by
  unfold csvOk; infer_instance

/-- The staging row a source row produces: each staging column takes the
row's value at the position where the header names that column, and NULL
when the header does not name it. -/
def insertByName (cols header : List String) (row : List String) : Row :=
  cols.map fun c => (header.indexOf? c).bind fun i => row[i]?

/-- Staging rows of a whole file. -/
def loadedRows (csv : Csv) (t : StgTable) : Table :=
  csv.rows.map (insertByName (stgCols t) csv.header)

/-- Errors of the staging load. -/
inductive LoadErr where
  /-- the bulk insert is rejected by the store. -/
  | storageError
deriving DecidableEq, Repr

/-- Outcome of one `load_csv_to_staging` call: the committed store, the
Python return value, and the row count of the success message. -/
structure LoadResult where
  store : Store
  ret : Option Nat
  printed : Option Nat
  err : Option LoadErr
deriving DecidableEq, Repr

/-- `load_csv_to_staging`: on one connection, `TRUNCATE` the staging
table, bulk-insert every source row, then `commit()`.  Both statements
live in the connection's implicit transaction; when the insert raises,
`commit()` is never reached and the transaction rolls back, so the
committed store is unchanged.  The function body has no `return`
statement, so a completed call returns `None`; the success message
prints `len(data)`. -/
def load_csv_to_staging (csv : Csv) (t : StgTable) (s : Store) : LoadResult :=
  if csvOk csv t then
    { store := (s.setStg t []).setStg t (loadedRows csv t)
      ret := none
      printed := some csv.rows.length
      err := none }
  else
    { store := s, ret := none, printed := none, err := some .storageError }

/-! ## Merge phases (`load_dimension_tables`, `load_fact_tables`) -/

/-- The four dimension kinds, in the statement order of
`load_dimension_tables`. -/
inductive DimT where
  | product | customer | time | store
deriving DecidableEq, Repr

/-- The two fact kinds, in the statement order of `load_fact_tables`. -/
inductive FactT where
  | sales | inventory
deriving DecidableEq, Repr

/-- One executed statement of the pipeline, for ordering properties. -/
inductive Ev where
  | stage : StgTable → Ev
  | mergeDim : DimT → Ev
  | mergeFact : FactT → Ev
deriving DecidableEq, Repr

/-- One dimension upsert:
`INSERT INTO dim_x SELECT DISTINCT * FROM stg_x ON CONFLICT (key) DO
UPDATE SET ...` — the source rows are the full-row-deduplicated staging
rows; dimension tables have no foreign keys. -/
def mergeDim (spec : TableSpec) (stg tgt : Table) : Except MergeErr Table :=
  upsertAll spec [] [] tgt stg.dedup

/-- `load_dimension_tables`: one connection, the four dimension upserts
in order, one `commit()` at the end.  Any error aborts before the commit
and rolls the whole phase back.  Also returns the executed-statement
trace. -/
def load_dimension_tables (s : Store) : Store × List Ev × Option MergeErr :=
  match mergeDim productSpec s.stg_products s.dim_product with
  | .error e => (s, [.mergeDim .product], some e)
  | .ok dp =>
  match mergeDim customerSpec s.stg_customers s.dim_customer with
  | .error e => (s, [.mergeDim .product, .mergeDim .customer], some e)
  | .ok dc =>
  match mergeDim timeSpec s.stg_time_dimension s.dim_time with
  | .error e =>
    (s, [.mergeDim .product, .mergeDim .customer, .mergeDim .time], some e)
  | .ok dt =>
  match mergeDim storeSpec s.stg_stores s.dim_store with
  | .error e =>
    (s, [.mergeDim .product, .mergeDim .customer, .mergeDim .time,
         .mergeDim .store], some e)
  | .ok ds =>
    ({ s with dim_product := dp, dim_customer := dc,
              dim_time := dt, dim_store := ds },
     [.mergeDim .product, .mergeDim .customer, .mergeDim .time,
      .mergeDim .store], none)

/-- Foreign keys of `fact_sales` (`create_fact_tables`): `date_id`,
`product_id`, `customer_id`, `store_id` reference the corresponding
dimension tables' primary keys. -/
def salesFks (s : Store) : Fks :=
  [(1, keysOf s.dim_time), (2, keysOf s.dim_product),
   (3, keysOf s.dim_customer), (4, keysOf s.dim_store)]

/-- Foreign keys of `fact_inventory`: `date_id`, `product_id`,
`store_id`. -/
def inventoryFks (s : Store) : Fks :=
  [(1, keysOf s.dim_time), (2, keysOf s.dim_product),
   (3, keysOf s.dim_store)]

/-- `load_fact_tables`: one connection, the sales then the inventory
upsert, one `commit()` at the end; an error anywhere rolls both back.
The fact statements read `SELECT *` from staging — no `DISTINCT`. -/
def load_fact_tables (s : Store) : Store × List Ev × Option MergeErr :=
  match upsertAll salesSpec (salesFks s) [] s.fact_sales s.stg_sales with
  | .error e => (s, [.mergeFact .sales], some e)
  | .ok fs =>
  match upsertAll inventorySpec (inventoryFks s) [] s.fact_inventory
      s.stg_inventory with
  | .error e => (s, [.mergeFact .sales, .mergeFact .inventory], some e)
  | .ok fi =>
    ({ s with fact_sales := fs, fact_inventory := fi },
     [.mergeFact .sales, .mergeFact .inventory], none)

/-! ## Orchestrator (`run_etl`) -/

/-- The six source files consumed by `run_etl`. -/
structure EtlFiles where
  products : Csv
  customers : Csv
  time_dimension : Csv
  stores : Csv
  sales : Csv
  inventory : Csv
deriving DecidableEq, Repr

/-- A pipeline error: a failed staging load or a failed merge. -/
inductive EtlErr where
  | load : LoadErr → EtlErr
  | merge : MergeErr → EtlErr
deriving DecidableEq, Repr

/-- The statement trace of a run that completes every phase. -/
def canonicalTrace : List Ev :=
  [.stage .products, .stage .customers, .stage .timeDim, .stage .stores,
   .stage .sales, .stage .inventory,
   .mergeDim .product, .mergeDim .customer, .mergeDim .time,
   .mergeDim .store, .mergeFact .sales, .mergeFact .inventory]

/-- The trace of a completed staging phase. -/
def stagingTrace : List Ev :=
  [.stage .products, .stage .customers, .stage .timeDim, .stage .stores,
   .stage .sales, .stage .inventory]

/-- Tail of `run_etl` after all six staging loads have completed:
`load_dimension_tables()` then `load_fact_tables()`, aborting on the
first error. -/
def runMergePhases (s : Store) : Store × List Ev × Option EtlErr :=
  let d := load_dimension_tables s
  match d.2.2 with
  | some e => (d.1, stagingTrace ++ d.2.1, some (.merge e))
  | none =>
  let f := load_fact_tables d.1
  match f.2.2 with
  | some e => (f.1, stagingTrace ++ d.2.1 ++ f.2.1, some (.merge e))
  | none => (f.1, stagingTrace ++ d.2.1 ++ f.2.1, none)

/-- `run_etl`: the six staging loads in source order, then the dimension
phase, then the fact phase; the first failing step aborts the run.
Returns the final store, the executed-statement trace and the error, if
any. -/
def run_etl (files : EtlFiles) (s : Store) : Store × List Ev × Option EtlErr :=
  let r1 := load_csv_to_staging files.products .products s
  match r1.err with
  | some e => (r1.store, [.stage .products], some (.load e))
  | none =>
  let r2 := load_csv_to_staging files.customers .customers r1.store
  match r2.err with
  | some e => (r2.store, [.stage .products, .stage .customers], some (.load e))
  | none =>
  let r3 := load_csv_to_staging files.time_dimension .timeDim r2.store
  match r3.err with
  | some e =>
    (r3.store, [.stage .products, .stage .customers, .stage .timeDim],
     some (.load e))
  | none =>
  let r4 := load_csv_to_staging files.stores .stores r3.store
  match r4.err with
  | some e =>
    (r4.store,
     [.stage .products, .stage .customers, .stage .timeDim, .stage .stores],
     some (.load e))
  | none =>
  let r5 := load_csv_to_staging files.sales .sales r4.store
  match r5.err with
  | some e =>
    (r5.store,
     [.stage .products, .stage .customers, .stage .timeDim, .stage .stores,
      .stage .sales], some (.load e))
  | none =>
  let r6 := load_csv_to_staging files.inventory .inventory r5.store
  match r6.err with
  | some e =>
    (r6.store,
     [.stage .products, .stage .customers, .stage .timeDim, .stage .stores,
      .stage .sales, .stage .inventory], some (.load e))
  | none => runMergePhases r6.store

/-! ## Basic lemmas about rows and keys -/

/-- Keys of a table are pairwise distinct (the PRIMARY KEY invariant). -/
def keyNodup (spec : TableSpec) (t : Table) : Prop :=
  (t.map (rowKey spec)).Nodup

theorem updateRow_length (spec : TableSpec) (old r : Row) :
    (updateRow spec old r).length = spec.ncols := by
  simp [updateRow]

theorem updateRow_getD (spec : TableSpec) (old r : Row) {i : Nat}
    (h : i < spec.ncols) :
    (updateRow spec old r).getD i none =
      if i ∈ spec.updatable then r.getD i none else old.getD i none := by
  simp [updateRow, List.getD_eq_getElem?_getD, List.getElem?_map,
    List.getElem?_range, h]

theorem rowKey_updateRow (spec : TableSpec) (old r : Row)
    (hwf : spec.keyIdx < spec.ncols)
    (hk : rowKey spec old = rowKey spec r) :
    rowKey spec (updateRow spec old r) = rowKey spec r := by
  unfold rowKey at *
  rw [updateRow_getD spec old r hwf]
  split
  · rfl
  · exact hk

theorem updateRow_idem (spec : TableSpec) (old r : Row) :
    updateRow spec (updateRow spec old r) r = updateRow spec old r := by
  show (List.range spec.ncols).map _ = (List.range spec.ncols).map _
  refine List.map_congr_left fun i hi => ?_
  rw [List.mem_range] at hi
  by_cases h : i ∈ spec.updatable
  · rw [if_pos h, if_pos h]
  · rw [if_neg h, if_neg h, updateRow_getD spec old r hi, if_neg h]

theorem updateRow_self (spec : TableSpec) (r : Row)
    (hlen : r.length = spec.ncols) :
    updateRow spec r r = r := by
  apply List.ext_getElem
  · simp [updateRow_length, hlen]
  · intro i h₁ h₂
    rw [updateRow_length] at h₁
    have : (updateRow spec r r).getD i none = r.getD i none := by
      rw [updateRow_getD spec r r h₁]; split <;> rfl
    rwa [List.getD_eq_getElem?_getD, List.getD_eq_getElem?_getD,
      List.getElem?_eq_getElem h₂, List.getElem?_eq_getElem (by omega),
      Option.getD_some, Option.getD_some] at this

/-! ## Lemmas about `findRow` -/

@[simp] theorem findRow_nil (spec : TableSpec) (k : Val) :
    findRow spec k [] = none := rfl

theorem findRow_cons (spec : TableSpec) (k : Val) (o : Row) (t : List Row) :
    findRow spec k (o :: t) =
      if rowKey spec o = k then some o else findRow spec k t := rfl

theorem findRow_eq_some {spec : TableSpec} {k : Val} {t : List Row} {o : Row}
    (h : findRow spec k t = some o) : o ∈ t ∧ rowKey spec o = k := by
  induction t with
  | nil => simp at h
  | cons a t ih =>
    rw [findRow_cons] at h
    split at h
    · cases h; exact ⟨List.mem_cons_self .., by assumption⟩
    · obtain ⟨h1, h2⟩ := ih h
      exact ⟨List.mem_cons_of_mem _ h1, h2⟩

theorem findRow_eq_none {spec : TableSpec} {k : Val} {t : List Row} :
    findRow spec k t = none ↔ k ∉ t.map (rowKey spec) := by
  induction t with
  | nil => simp
  | cons a t ih =>
    rw [findRow_cons]
    split <;> simp_all [eq_comm]

theorem findRow_append (spec : TableSpec) (k : Val) (t₁ t₂ : List Row) :
    findRow spec k (t₁ ++ t₂) =
      match findRow spec k t₁ with
      | some o => some o
      | none => findRow spec k t₂ := by
  induction t₁ with
  | nil => simp
  | cons a t ih =>
    rw [List.cons_append, findRow_cons, findRow_cons]
    split <;> simp [ih]

theorem findRow_of_nodup_mem {spec : TableSpec} {rows : List Row} {r : Row}
    (hnd : (rows.map (rowKey spec)).Nodup) (hm : r ∈ rows) :
    findRow spec (rowKey spec r) rows = some r := by
  induction rows with
  | nil => simp at hm
  | cons a rows ih =>
    rw [List.map_cons, List.nodup_cons] at hnd
    rcases List.mem_cons.1 hm with h | h
    · subst h; rw [findRow_cons, if_pos rfl]
    · rw [findRow_cons]
      split
      · exfalso
        exact hnd.1 (by simpa [*] using List.mem_map_of_mem (rowKey spec) h)
      · exact ih hnd.2 h

/-- Rewriting the key-`k` rows in place does not change what `findRow`
returns for any other key. -/
theorem findRow_map_update {spec : TableSpec} {r : Row} (hwf : spec.keyIdx < spec.ncols)
    (tgt : Table) {k' : Val} (hne : k' ≠ rowKey spec r) :
    findRow spec k'
      (tgt.map fun t =>
        if rowKey spec t = rowKey spec r then updateRow spec t r else t) =
      findRow spec k' tgt := by
  induction tgt with
  | nil => rfl
  | cons o t ih =>
    rw [List.map_cons, findRow_cons, findRow_cons]
    by_cases ho : rowKey spec o = rowKey spec r
    · rw [if_pos ho, rowKey_updateRow spec o r hwf ho,
        if_neg (fun h => hne h.symm), if_neg (ho ▸ fun h => hne h.symm), ih]
    · rw [if_neg ho]
      by_cases h2 : rowKey spec o = k'
      · rw [if_pos h2, if_pos h2]
      · rw [if_neg h2, if_neg h2]
        exact ih

/-! ## Lemmas about `updatedTable`, `insertedRows`, `mergeResult` -/

@[simp] theorem updatedTable_nil (spec : TableSpec) (rows : List Row) :
    updatedTable spec rows [] = [] := rfl

theorem updatedTable_cons (spec : TableSpec) (rows : List Row) (o : Row)
    (t : Table) :
    updatedTable spec rows (o :: t) =
      (match findRow spec (rowKey spec o) rows with
       | some r => updateRow spec o r
       | none => o) :: updatedTable spec rows t := rfl

theorem updatedTable_append (spec : TableSpec) (rows : List Row)
    (t₁ t₂ : Table) :
    updatedTable spec rows (t₁ ++ t₂) =
      updatedTable spec rows t₁ ++ updatedTable spec rows t₂ := by
  induction t₁ with
  | nil => rfl
  | cons o t ih => rw [List.cons_append, updatedTable_cons, updatedTable_cons,
      List.cons_append, ih]

theorem updatedTable_keys (spec : TableSpec) (rows : List Row) (tgt : Table)
    (hwf : spec.keyIdx < spec.ncols) :
    (updatedTable spec rows tgt).map (rowKey spec) =
      tgt.map (rowKey spec) := by
  induction tgt with
  | nil => rfl
  | cons o t ih =>
    rw [updatedTable_cons, List.map_cons, List.map_cons, ih]
    congr 1
    rcases h : findRow spec (rowKey spec o) rows with _ | r
    · rfl
    · have hk := (findRow_eq_some h).2
      rw [rowKey_updateRow spec o r hwf hk.symm, hk]

@[simp] theorem insertedRows_nil (spec : TableSpec) (tgt : Table) :
    insertedRows spec tgt [] = [] := rfl

theorem insertedRows_cons (spec : TableSpec) (tgt : Table) (r : Row)
    (rs : List Row) :
    insertedRows spec tgt (r :: rs) =
      if findRow spec (rowKey spec r) tgt = none then
        r :: insertedRows spec tgt rs
      else insertedRows spec tgt rs := rfl

theorem insertedRows_sublist (spec : TableSpec) (tgt : Table)
    (rows : List Row) : List.Sublist (insertedRows spec tgt rows) rows := by
  induction rows with
  | nil => exact List.Sublist.refl _
  | cons r rs ih =>
    rw [insertedRows_cons]
    split
    · exact ih.cons₂ r
    · exact ih.cons r

theorem mem_insertedRows {spec : TableSpec} {tgt : Table} {rows : List Row}
    {r : Row} (h : r ∈ insertedRows spec tgt rows) :
    r ∈ rows ∧ findRow spec (rowKey spec r) tgt = none := by
  induction rows with
  | nil => simp at h
  | cons a rs ih =>
    rw [insertedRows_cons] at h
    split at h
    · rcases List.mem_cons.1 h with h | h
      · subst h; exact ⟨List.mem_cons_self .., by assumption⟩
      · exact ⟨List.mem_cons_of_mem _ (ih h).1, (ih h).2⟩
    · exact ⟨List.mem_cons_of_mem _ (ih h).1, (ih h).2⟩

theorem insertedRows_mem_of {spec : TableSpec} {tgt : Table} {rows : List Row}
    {r : Row} (hm : r ∈ rows)
    (hn : findRow spec (rowKey spec r) tgt = none) :
    r ∈ insertedRows spec tgt rows := by
  induction rows with
  | nil => simp at hm
  | cons a rs ih =>
    rw [insertedRows_cons]
    rcases List.mem_cons.1 hm with h | h
    · subst h; rw [if_pos hn]; exact List.mem_cons_self ..
    · split
      · exact List.mem_cons_of_mem _ (ih h)
      · exact ih h

theorem insertedRows_congr {spec : TableSpec} {tgt₁ tgt₂ : Table}
    {rows : List Row}
    (h : ∀ r ∈ rows, (findRow spec (rowKey spec r) tgt₁ = none ↔
      findRow spec (rowKey spec r) tgt₂ = none)) :
    insertedRows spec tgt₁ rows = insertedRows spec tgt₂ rows := by
  induction rows with
  | nil => rfl
  | cons r rs ih =>
    rw [insertedRows_cons, insertedRows_cons]
    have hr := h r (List.mem_cons_self ..)
    have hrs := ih fun r hm => h r (List.mem_cons_of_mem _ hm)
    by_cases h1 : findRow spec (rowKey spec r) tgt₁ = none
    · rw [if_pos h1, if_pos (hr.1 h1), hrs]
    · rw [if_neg h1, if_neg (fun h2 => h1 (hr.2 h2)), hrs]

theorem insertedRows_eq_nil {spec : TableSpec} {tgt : Table} {rows : List Row}
    (h : ∀ r ∈ rows, findRow spec (rowKey spec r) tgt ≠ none) :
    insertedRows spec tgt rows = [] := by
  induction rows with
  | nil => rfl
  | cons r rs ih =>
    rw [insertedRows_cons, if_neg (h r (List.mem_cons_self ..))]
    exact ih fun r hm => h r (List.mem_cons_of_mem _ hm)

/-- Processing a conflicting source row first and then the rest on the
updated target gives the same closed-form result. -/
theorem mergeResult_cons_update {spec : TableSpec} {r o : Row} {rs : List Row}
    {tgt : Table} (hwf : spec.keyIdx < spec.ncols)
    (hkm : findRow spec (rowKey spec r) tgt = some o)
    (hnk : rowKey spec r ∉ rs.map (rowKey spec)) :
    mergeResult spec (r :: rs) tgt =
      mergeResult spec rs
        (tgt.map fun t =>
          if rowKey spec t = rowKey spec r then updateRow spec t r else t) := by
  unfold mergeResult
  congr 1
  · clear hkm
    induction tgt with
    | nil => rfl
    | cons o' t ih =>
      rw [updatedTable_cons, List.map_cons, updatedTable_cons, ih]
      congr 1
      by_cases ho : rowKey spec o' = rowKey spec r
      · rw [if_pos ho, findRow_cons, if_pos ho.symm,
          rowKey_updateRow spec o' r hwf ho,
          (@findRow_eq_none spec _ _).2 hnk]
      · rw [if_neg ho, findRow_cons, if_neg (fun h => ho h.symm)]
  · rw [insertedRows_cons, if_neg (by rw [hkm]; simp)]
    refine insertedRows_congr fun r' hm => ?_
    have hne : rowKey spec r' ≠ rowKey spec r := fun h => hnk
      (by rw [← h]; exact List.mem_map_of_mem (rowKey spec) hm)
    rw [findRow_map_update hwf tgt hne]

/-- Processing a fresh source row first and then the rest on the
extended target gives the same closed-form result. -/
theorem mergeResult_cons_insert {spec : TableSpec} {r : Row} {rs : List Row}
    {tgt : Table}
    (hkn : findRow spec (rowKey spec r) tgt = none)
    (hnk : rowKey spec r ∉ rs.map (rowKey spec)) :
    mergeResult spec (r :: rs) tgt = mergeResult spec rs (tgt ++ [r]) := by
  have htk : ∀ o ∈ tgt, rowKey spec o ≠ rowKey spec r := by
    intro o ho h
    exact (findRow_eq_none.1 hkn) (h ▸ List.mem_map_of_mem (rowKey spec) ho)
  unfold mergeResult
  have h1 : updatedTable spec (r :: rs) tgt = updatedTable spec rs tgt := by
    clear hkn
    induction tgt with
    | nil => rfl
    | cons o' t ih =>
      rw [updatedTable_cons, updatedTable_cons,
        ih fun o ho => htk o (List.mem_cons_of_mem _ ho)]
      congr 1
      rw [findRow_cons, if_neg fun h => htk o' (List.mem_cons_self ..) h.symm]
  have h2 : updatedTable spec rs (tgt ++ [r]) =
      updatedTable spec rs tgt ++ [r] := by
    rw [updatedTable_append, updatedTable_cons, updatedTable_nil,
      (@findRow_eq_none spec _ _).2 hnk]
  have h3 : insertedRows spec (tgt ++ [r]) rs = insertedRows spec tgt rs := by
    refine insertedRows_congr fun r' hm => ?_
    have hne : rowKey spec r ≠ rowKey spec r' := fun h => hnk
      (by rw [h]; exact List.mem_map_of_mem (rowKey spec) hm)
    rw [findRow_append]
    rcases h : findRow spec (rowKey spec r') tgt with _ | o
    · show findRow spec (rowKey spec r') [r] = none ↔ (none : Option Row) = none
      rw [findRow_cons, findRow_nil, if_neg hne]
    · exact Iff.rfl
  rw [h1, h2, h3, insertedRows_cons, if_pos hkn]
  simp [List.append_assoc]

theorem updatedTable_rows_nil (spec : TableSpec) (tgt : Table) :
    updatedTable spec [] tgt = tgt := by
  induction tgt with
  | nil => rfl
  | cons o t ih => rw [updatedTable_cons, findRow_nil, ih]

theorem mergeResult_nil (spec : TableSpec) (tgt : Table) :
    mergeResult spec [] tgt = tgt := by
  rw [mergeResult, updatedTable_rows_nil, insertedRows_nil, List.append_nil]

/-! ## Characterization of `upsertAll` -/

@[simp] theorem upsertAll_nil (spec : TableSpec) (fks : Fks)
    (touched : List Val) (tgt : Table) :
    upsertAll spec fks touched tgt [] = .ok tgt := rfl

theorem upsertAll_cons (spec : TableSpec) (fks : Fks) (touched : List Val)
    (tgt : Table) (r : Row) (rs : List Row) :
    upsertAll spec fks touched tgt (r :: rs) =
      if rowKey spec r ∈ touched then .error .dupAffect
      else
        match findRow spec (rowKey spec r) tgt with
        | some o =>
          if fkHolds fks (updateRow spec o r) then
            upsertAll spec fks (rowKey spec r :: touched)
              (tgt.map fun t =>
                if rowKey spec t = rowKey spec r then updateRow spec t r
                else t) rs
          else .error .fkViolation
        | none =>
          if fkHolds fks r then
            upsertAll spec fks (rowKey spec r :: touched) (tgt ++ [r]) rs
          else .error .fkViolation := rfl

theorem applyTo_map_update {spec : TableSpec} (hwf : spec.keyIdx < spec.ncols)
    {r r' : Row} (tgt : Table)
    (hne : rowKey spec r' ≠ rowKey spec r) :
    applyTo spec
      (tgt.map fun t =>
        if rowKey spec t = rowKey spec r then updateRow spec t r else t) r' =
      applyTo spec tgt r' := by
  unfold applyTo
  rw [findRow_map_update hwf tgt hne]

theorem applyTo_append_single {spec : TableSpec} {r r' : Row} {tgt : Table}
    (hne : rowKey spec r ≠ rowKey spec r') :
    applyTo spec (tgt ++ [r]) r' = applyTo spec tgt r' := by
  unfold applyTo
  rw [findRow_append]
  rcases h : findRow spec (rowKey spec r') tgt with _ | o
  · show (match findRow spec (rowKey spec r') [r] with
      | some o => updateRow spec o r'
      | none => r') = r'
    rw [findRow_cons, findRow_nil, if_neg hne]
  · rfl

/-- Soundness direction: when the source keys are pairwise distinct,
none of them was already affected, and every written row satisfies the
foreign keys, the bulk upsert succeeds and produces `mergeResult`. -/
theorem upsertAll_eq_ok_of (spec : TableSpec) (fks : Fks)
    (hwf : spec.keyIdx < spec.ncols) (rows : List Row) :
    ∀ (touched : List Val) (tgt : Table),
    (rows.map (rowKey spec)).Nodup →
    (∀ r ∈ rows, rowKey spec r ∉ touched) →
    (∀ r ∈ rows, fkHolds fks (applyTo spec tgt r)) →
    upsertAll spec fks touched tgt rows = .ok (mergeResult spec rows tgt) := by
  induction rows with
  | nil =>
    intro touched tgt _ _ _
    rw [upsertAll_nil, mergeResult_nil]
  | cons r rs ih =>
    intro touched tgt hnd htch hfk
    rw [List.map_cons, List.nodup_cons] at hnd
    rw [upsertAll_cons, if_neg (htch r (List.mem_cons_self ..))]
    have htch' : ∀ r' ∈ rs, rowKey spec r' ∉ rowKey spec r :: touched := by
      intro r' hm hc
      rcases List.mem_cons.1 hc with hc | hc
      · exact hnd.1 (hc ▸ List.mem_map_of_mem (rowKey spec) hm)
      · exact htch r' (List.mem_cons_of_mem _ hm) hc
    have hner : ∀ r' ∈ rs, rowKey spec r' ≠ rowKey spec r := by
      intro r' hm hc
      exact hnd.1 (hc ▸ List.mem_map_of_mem (rowKey spec) hm)
    split
    · rename_i o hf
      have hfkr : fkHolds fks (updateRow spec o r) := by
        have := hfk r (List.mem_cons_self ..)
        unfold applyTo at this
        rw [hf] at this
        exact this
      rw [if_pos hfkr,
        ih (rowKey spec r :: touched) _ hnd.2 htch'
          (fun r' hm => by
            rw [applyTo_map_update hwf tgt (hner r' hm)]
            exact hfk r' (List.mem_cons_of_mem _ hm)),
        mergeResult_cons_update hwf hf hnd.1]
    · rename_i hf
      have hfkr : fkHolds fks r := by
        have := hfk r (List.mem_cons_self ..)
        unfold applyTo at this
        rw [hf] at this
        exact this
      rw [if_pos hfkr,
        ih (rowKey spec r :: touched) (tgt ++ [r]) hnd.2 htch'
          (fun r' hm => by
            rw [applyTo_append_single fun hc => hner r' hm hc.symm]
            exact hfk r' (List.mem_cons_of_mem _ hm)),
        mergeResult_cons_insert hf hnd.1]

/-- Completeness direction: a successful bulk upsert implies distinct
source keys, untouched keys, foreign keys satisfied by every written
row, and the closed-form result. -/
theorem upsertAll_ok_inv (spec : TableSpec) (fks : Fks)
    (hwf : spec.keyIdx < spec.ncols) (rows : List Row) :
    ∀ (touched : List Val) (tgt : Table) (t' : Table),
    upsertAll spec fks touched tgt rows = .ok t' →
    (rows.map (rowKey spec)).Nodup ∧
    (∀ r ∈ rows, rowKey spec r ∉ touched) ∧
    (∀ r ∈ rows, fkHolds fks (applyTo spec tgt r)) ∧
    t' = mergeResult spec rows tgt := by
  induction rows with
  | nil =>
    intro touched tgt t' h
    rw [upsertAll_nil] at h
    cases h
    exact ⟨List.nodup_nil, by simp, by simp, (mergeResult_nil spec tgt).symm⟩
  | cons r rs ih =>
    intro touched tgt t' h
    rw [upsertAll_cons] at h
    split at h
    · cases h
    · rename_i htch
      split at h
      · -- update path
        rename_i o hf
        split at h
        · rename_i hfkr
          obtain ⟨hnd, htch', hfk', ht'⟩ := ih _ _ _ h
          have hner : ∀ r' ∈ rs, rowKey spec r' ≠ rowKey spec r := by
            intro r' hm hc
            exact htch' r' hm (hc ▸ List.mem_cons_self ..)
          have hnk : rowKey spec r ∉ rs.map (rowKey spec) := by
            intro hc
            obtain ⟨r', hm, he⟩ := List.mem_map.1 hc
            exact hner r' hm he
          refine ⟨List.nodup_cons.2 ⟨hnk, hnd⟩, ?_, ?_, ?_⟩
          · intro r' hm
            rcases List.mem_cons.1 hm with hm | hm
            · subst hm; exact htch
            · exact fun hc => htch' r' hm (List.mem_cons_of_mem _ hc)
          · intro r' hm
            rcases List.mem_cons.1 hm with hm | hm
            · subst hm
              unfold applyTo
              rw [hf]
              exact hfkr
            · have := hfk' r' hm
              rwa [applyTo_map_update hwf tgt (hner r' hm)] at this
          · rw [ht', mergeResult_cons_update hwf hf hnk]
        · cases h
      · -- insert path
        rename_i hf
        split at h
        · rename_i hfkr
          obtain ⟨hnd, htch', hfk', ht'⟩ := ih _ _ _ h
          have hner : ∀ r' ∈ rs, rowKey spec r' ≠ rowKey spec r := by
            intro r' hm hc
            exact htch' r' hm (hc ▸ List.mem_cons_self ..)
          have hnk : rowKey spec r ∉ rs.map (rowKey spec) := by
            intro hc
            obtain ⟨r', hm, he⟩ := List.mem_map.1 hc
            exact hner r' hm he
          refine ⟨List.nodup_cons.2 ⟨hnk, hnd⟩, ?_, ?_, ?_⟩
          · intro r' hm
            rcases List.mem_cons.1 hm with hm | hm
            · subst hm; exact htch
            · exact fun hc => htch' r' hm (List.mem_cons_of_mem _ hc)
          · intro r' hm
            rcases List.mem_cons.1 hm with hm | hm
            · subst hm
              unfold applyTo
              rw [hf]
              exact hfkr
            · have := hfk' r' hm
              rwa [applyTo_append_single fun hc => hner r' hm hc.symm] at this
          · rw [ht', mergeResult_cons_insert hf hnk]
        · cases h

/-! ## Key bookkeeping and idempotence of the upsert -/

theorem rowKey_updEntry {spec : TableSpec} (hwf : spec.keyIdx < spec.ncols)
    (o : Row) (rows : List Row) :
    rowKey spec
      (match findRow spec (rowKey spec o) rows with
       | some r => updateRow spec o r
       | none => o) = rowKey spec o := by
  rcases h : findRow spec (rowKey spec o) rows with _ | r
  · rfl
  · have hk := (findRow_eq_some h).2
    rw [rowKey_updateRow spec o r hwf hk.symm, hk]

theorem findRow_updatedTable {spec : TableSpec} (hwf : spec.keyIdx < spec.ncols)
    (rows : List Row) (tgt : Table) (k : Val) :
    findRow spec k (updatedTable spec rows tgt) =
      match findRow spec k tgt with
      | some o =>
        some (match findRow spec k rows with
              | some r => updateRow spec o r
              | none => o)
      | none => none := by
  induction tgt with
  | nil => rfl
  | cons o' t ih =>
    rw [updatedTable_cons, findRow_cons, findRow_cons,
      rowKey_updEntry hwf o' rows]
    by_cases ho : rowKey spec o' = k
    · rw [if_pos ho, if_pos ho, ho]
    · rw [if_neg ho, if_neg ho, ih]

/-- After a successful upsert, looking up a source row's key finds
exactly the row that the upsert wrote for it. -/
theorem findRow_mergeResult {spec : TableSpec} (hwf : spec.keyIdx < spec.ncols)
    {rows : List Row} {r : Row} (tgt : Table)
    (hnd : (rows.map (rowKey spec)).Nodup) (hm : r ∈ rows) :
    findRow spec (rowKey spec r) (mergeResult spec rows tgt) =
      some (applyTo spec tgt r) := by
  unfold mergeResult applyTo
  rw [findRow_append, findRow_updatedTable hwf]
  rcases hf : findRow spec (rowKey spec r) tgt with _ | o
  · show findRow spec (rowKey spec r) (insertedRows spec tgt rows) = some r
    have hnd' : ((insertedRows spec tgt rows).map (rowKey spec)).Nodup :=
      hnd.sublist ((insertedRows_sublist spec tgt rows).map _)
    exact findRow_of_nodup_mem hnd' (insertedRows_mem_of hm hf)
  · rw [findRow_of_nodup_mem hnd hm]

theorem keyNodup_mergeResult {spec : TableSpec} (hwf : spec.keyIdx < spec.ncols)
    {rows : List Row} {tgt : Table} (hnt : keyNodup spec tgt)
    (hnd : (rows.map (rowKey spec)).Nodup) :
    keyNodup spec (mergeResult spec rows tgt) := by
  unfold keyNodup mergeResult
  rw [List.map_append, updatedTable_keys spec rows tgt hwf]
  refine List.Nodup.append hnt
    (hnd.sublist ((insertedRows_sublist spec tgt rows).map _)) ?_
  intro k h1 h2
  obtain ⟨r', hm, he⟩ := List.mem_map.1 h2
  have := (mem_insertedRows hm).2
  rw [findRow_eq_none] at this
  exact this (he ▸ h1)

theorem updatedTable_of_self {spec : TableSpec} {rows : List Row} {t : Table}
    (h : ∀ o ∈ t, findRow spec (rowKey spec o) rows = some o ∧
      o.length = spec.ncols) :
    updatedTable spec rows t = t := by
  induction t with
  | nil => rfl
  | cons o t ih =>
    have ho := h o (List.mem_cons_self ..)
    rw [updatedTable_cons, ho.1, ih fun o hm => h o (List.mem_cons_of_mem _ hm)]
    show updateRow spec o o :: t = o :: t
    rw [updateRow_self spec o ho.2]

/-- Re-merging the same source rows into the result of a merge changes
nothing. -/
theorem mergeResult_self {spec : TableSpec} (hwf : spec.keyIdx < spec.ncols)
    (rows : List Row) (tgt : Table)
    (hnd : (rows.map (rowKey spec)).Nodup)
    (hlen : ∀ r ∈ rows, r.length = spec.ncols) :
    mergeResult spec rows (mergeResult spec rows tgt) =
      mergeResult spec rows tgt := by
  have hins : insertedRows spec (mergeResult spec rows tgt) rows = [] :=
    insertedRows_eq_nil fun r hm => by
      rw [findRow_mergeResult hwf tgt hnd hm]
      simp
  have ha : updatedTable spec rows (updatedTable spec rows tgt) =
      updatedTable spec rows tgt := by
    clear hins
    induction tgt with
    | nil => rfl
    | cons o t ih =>
      rw [updatedTable_cons, updatedTable_cons, ih]
      congr 1
      rw [rowKey_updEntry hwf o rows]
      rcases h : findRow spec (rowKey spec o) rows with _ | r
      · rfl
      · show updateRow spec (updateRow spec o r) r = updateRow spec o r
        exact updateRow_idem spec o r
  have hb : updatedTable spec rows (insertedRows spec tgt rows) =
      insertedRows spec tgt rows := by
    refine updatedTable_of_self fun o hm => ?_
    have h2 := mem_insertedRows hm
    exact ⟨findRow_of_nodup_mem hnd h2.1, hlen o h2.1⟩
  conv_lhs => rw [mergeResult, hins, List.append_nil, mergeResult,
    updatedTable_append, ha, hb]
  rfl

/-- A successful bulk upsert is idempotent: running the same statement a
second time on its own result succeeds and changes nothing.  Needs the
foreign-key columns to be among the updated columns (true for both fact
statements) and full-width source rows. -/
theorem upsertAll_idem (spec : TableSpec) (fks : Fks)
    (hwf : spec.keyIdx < spec.ncols)
    (hfkupd : ∀ p ∈ fks, p.1 ∈ spec.updatable ∧ p.1 < spec.ncols)
    (rows : List Row) (tgt t' : Table)
    (hlen : ∀ r ∈ rows, r.length = spec.ncols)
    (h : upsertAll spec fks [] tgt rows = .ok t') :
    upsertAll spec fks [] t' rows = .ok t' := by
  obtain ⟨hnd, -, hfk, ht'⟩ := upsertAll_ok_inv spec fks hwf rows [] tgt t' h
  subst ht'
  have hfk' : ∀ r ∈ rows,
      fkHolds fks (applyTo spec (mergeResult spec rows tgt) r) := by
    intro r hm
    unfold applyTo
    rw [findRow_mergeResult hwf tgt hnd hm]
    intro p hp
    rw [updateRow_getD spec _ r (hfkupd p hp).2, if_pos (hfkupd p hp).1]
    have h2 := hfk r hm p hp
    unfold applyTo at h2
    rcases hf : findRow spec (rowKey spec r) tgt with _ | o <;> rw [hf] at h2
    · exact h2
    · rwa [updateRow_getD spec o r (hfkupd p hp).2,
        if_pos (hfkupd p hp).1] at h2
  rw [upsertAll_eq_ok_of spec fks hwf rows [] (mergeResult spec rows tgt) hnd
    (by simp) hfk', mergeResult_self hwf rows tgt hnd hlen]

theorem updatedTable_eq_map (spec : TableSpec) (rows : List Row)
    (tgt : Table) :
    updatedTable spec rows tgt =
      tgt.map fun o =>
        match findRow spec (rowKey spec o) rows with
        | some r => updateRow spec o r
        | none => o := by
  induction tgt with
  | nil => rfl
  | cons o t ih => rw [updatedTable_cons, List.map_cons, ih]

theorem filter_key_updatedTable {spec : TableSpec} {rows : List Row} {k : Val}
    (hwf : spec.keyIdx < spec.ncols) (tgt : Table)
    (hkn : findRow spec k rows = none) :
    (updatedTable spec rows tgt).filter (fun o => rowKey spec o == k) =
      tgt.filter (fun o => rowKey spec o == k) := by
  induction tgt with
  | nil => rfl
  | cons o t ih =>
    rw [updatedTable_cons, List.filter_cons, List.filter_cons,
      rowKey_updEntry hwf o rows]
    by_cases ho : rowKey spec o = k
    · have : findRow spec (rowKey spec o) rows = none := ho ▸ hkn
      rw [this, if_pos (by simp [ho]), if_pos (by simp [ho]), ih]
    · rw [if_neg (by simp [ho]), if_neg (by simp [ho]), ih]

/-- In a list with pairwise-distinct keys, filtering by the key of a
member yields exactly that member. -/
theorem filter_key_of_nodup {spec : TableSpec} {l : List Row} {r : Row}
    (hnd : (l.map (rowKey spec)).Nodup) (hm : r ∈ l) :
    l.filter (fun o => rowKey spec o == rowKey spec r) = [r] := by
  induction l with
  | nil => simp at hm
  | cons a t ih =>
    rw [List.map_cons, List.nodup_cons] at hnd
    rcases List.mem_cons.1 hm with hm | hm
    · subst hm
      rw [List.filter_cons, if_pos (by simp)]
      have : t.filter (fun o => rowKey spec o == rowKey spec r) = [] := by
        refine List.filter_eq_nil_iff.2 fun o ho => ?_
        simp only [beq_iff_eq]
        intro hc
        exact hnd.1 (hc ▸ List.mem_map_of_mem (rowKey spec) ho)
      rw [this]
    · rw [List.filter_cons, if_neg ?_, ih hnd.2 hm]
      simp only [beq_iff_eq]
      intro hc
      exact hnd.1 (hc ▸ List.mem_map_of_mem (rowKey spec) hm)

/-- Per-spec well-formedness, holding for all six statements. -/
theorem dimSpecs_wf : ∀ spec ∈ dimSpecs,
    spec.keyIdx < spec.ncols ∧ ∀ i ∈ spec.updatable, i < spec.ncols := by
  decide

/-! ## C1 — upsert postcondition of the dimension merges -/

/-- C1. Merge postcondition of a dimension upsert: for every staging
row, if a target row with the same key exists, the successful merge's
result holds, at that key, a row agreeing with the staging row on every
updatable column and with the old target row on every other column (in
particular the key and `created_date`); if no target row with that key
exists, the result contains the staging row itself, and exactly one row
with that key. -/
theorem dim_merge_upsert_postcondition :
    ∀ spec ∈ dimSpecs, ∀ (stg tgt t' : Table),
    mergeDim spec stg tgt = .ok t' →
    ∀ r ∈ stg,
      (∀ old, findRow spec (rowKey spec r) tgt = some old →
        ∃ cur, findRow spec (rowKey spec r) t' = some cur ∧
          (∀ i ∈ spec.updatable, cur.getD i none = r.getD i none) ∧
          (∀ i, i < spec.ncols → i ∉ spec.updatable →
            cur.getD i none = old.getD i none)) ∧
      (findRow spec (rowKey spec r) tgt = none →
        r ∈ t' ∧
          t'.filter (fun o => rowKey spec o == rowKey spec r) = [r]) := by
  intro spec hspec stg tgt t' hok r hr
  obtain ⟨hwf, hupd⟩ := dimSpecs_wf spec hspec
  obtain ⟨hnd, -, -, ht'⟩ :=
    upsertAll_ok_inv spec [] hwf stg.dedup [] tgt t' hok
  subst ht'
  have hrd : r ∈ stg.dedup := List.mem_dedup.2 hr
  have hfind := findRow_mergeResult hwf tgt hnd hrd
  constructor
  · intro old hold
    refine ⟨applyTo spec tgt r, hfind, ?_, ?_⟩
    · intro i hi
      unfold applyTo
      rw [hold]
      show (updateRow spec old r).getD i none = r.getD i none
      rw [updateRow_getD spec old r (hupd i hi), if_pos hi]
    · intro i hlt hi
      unfold applyTo
      rw [hold]
      show (updateRow spec old r).getD i none = old.getD i none
      rw [updateRow_getD spec old r hlt, if_neg hi]
  · intro hnone
    have hrins : r ∈ insertedRows spec tgt stg.dedup :=
      insertedRows_mem_of hrd hnone
    constructor
    · exact List.mem_append_right _ hrins
    · have hupdnil :
          (updatedTable spec stg.dedup tgt).filter
            (fun o => rowKey spec o == rowKey spec r) = [] := by
        refine List.filter_eq_nil_iff.2 fun o ho => ?_
        simp only [beq_iff_eq]
        intro hc
        have hkm : rowKey spec o ∈ tgt.map (rowKey spec) := by
          rw [← updatedTable_keys spec stg.dedup tgt hwf]
          exact List.mem_map_of_mem (rowKey spec) ho
        exact (findRow_eq_none.1 hnone) (hc ▸ hkm)
      have hnd' :
          ((insertedRows spec tgt stg.dedup).map (rowKey spec)).Nodup :=
        hnd.sublist ((insertedRows_sublist spec tgt stg.dedup).map _)
      rw [mergeResult, List.filter_append, hupdnil, List.nil_append,
        filter_key_of_nodup hnd' hrins]

/-! ## C2 — the dimension merges never delete -/

/-- C2. No deletion: a successful dimension merge leaves every target
row whose key is absent from staging untouched (the row is still
present, and the rows carrying its key are exactly the ones the target
had), and it never removes a key — every target row's key is still the
key of some result row. -/
theorem dim_merge_no_deletion :
    ∀ spec ∈ dimSpecs, ∀ (stg tgt t' : Table),
    mergeDim spec stg tgt = .ok t' →
    ∀ old ∈ tgt,
      (rowKey spec old ∉ stg.map (rowKey spec) →
        old ∈ t' ∧
          t'.filter (fun o => rowKey spec o == rowKey spec old) =
            tgt.filter (fun o => rowKey spec o == rowKey spec old)) ∧
      ∃ cur ∈ t', rowKey spec cur = rowKey spec old := by
  intro spec hspec stg tgt t' hok old hold
  obtain ⟨hwf, -⟩ := dimSpecs_wf spec hspec
  obtain ⟨hnd, -, -, ht'⟩ :=
    upsertAll_ok_inv spec [] hwf stg.dedup [] tgt t' hok
  subst ht'
  constructor
  · intro habs
    have hkdedup : findRow spec (rowKey spec old) stg.dedup = none := by
      rw [findRow_eq_none]
      intro hc
      obtain ⟨r', hm', he'⟩ := List.mem_map.1 hc
      exact habs (he' ▸ List.mem_map_of_mem (rowKey spec)
        (List.mem_dedup.1 hm'))
    constructor
    · refine List.mem_append_left _ ?_
      rw [updatedTable_eq_map]
      refine List.mem_map.2 ⟨old, hold, ?_⟩
      rw [hkdedup]
    · have hinsnil :
          (insertedRows spec tgt stg.dedup).filter
            (fun o => rowKey spec o == rowKey spec old) = [] := by
        refine List.filter_eq_nil_iff.2 fun o ho => ?_
        simp only [beq_iff_eq]
        intro hc
        have hmo : o ∈ stg.dedup := (insertedRows_sublist ..).mem ho
        have := findRow_of_nodup_mem hnd hmo
        rw [hc] at this
        rw [hkdedup] at this
        cases this
      rw [mergeResult, List.filter_append, hinsnil, List.append_nil,
        filter_key_updatedTable hwf tgt hkdedup]
  · have hkm : rowKey spec old ∈
        (updatedTable spec stg.dedup tgt).map (rowKey spec) := by
      rw [updatedTable_keys spec stg.dedup tgt hwf]
      exact List.mem_map_of_mem (rowKey spec) hold
    obtain ⟨cur, hcur, he⟩ := List.mem_map.1 hkm
    exact ⟨cur, List.mem_append_left _ hcur, he⟩

/-! ## Evaluation lemmas for the store and pipeline functions -/

theorem setStg_setStg (s : Store) (t : StgTable) (v w : Table) :
    (s.setStg t v).setStg t w = s.setStg t w := by
  cases t <;> rfl

theorem getStg_setStg (s : Store) (t : StgTable) (v : Table) :
    (s.setStg t v).getStg t = v := by
  cases t <;> rfl

theorem setStg_getStg_self (s : Store) (t : StgTable) :
    s.setStg t (s.getStg t) = s := by
  cases t <;> rfl

theorem load_csv_ok {csv : Csv} {t : StgTable} (s : Store) (h : csvOk csv t) :
    load_csv_to_staging csv t s =
      ⟨s.setStg t (loadedRows csv t), none, some csv.rows.length, none⟩ := by
  unfold load_csv_to_staging
  rw [if_pos h, setStg_setStg]

theorem load_csv_bad {csv : Csv} {t : StgTable} (s : Store) (h : ¬csvOk csv t) :
    load_csv_to_staging csv t s = ⟨s, none, none, some .storageError⟩ := by
  unfold load_csv_to_staging
  rw [if_neg h]

/-- The store after a committed dimension phase. -/
def withDims (s : Store) (dp dc dt ds : Table) : Store :=
  { s with dim_product := dp, dim_customer := dc, dim_time := dt,
           dim_store := ds }

/-- The store after a committed fact phase. -/
def withFacts (s : Store) (fs fi : Table) : Store :=
  { s with fact_sales := fs, fact_inventory := fi }

theorem load_dim_eval_ok {s : Store} {dp dc dt ds : Table}
    (h1 : mergeDim productSpec s.stg_products s.dim_product = .ok dp)
    (h2 : mergeDim customerSpec s.stg_customers s.dim_customer = .ok dc)
    (h3 : mergeDim timeSpec s.stg_time_dimension s.dim_time = .ok dt)
    (h4 : mergeDim storeSpec s.stg_stores s.dim_store = .ok ds) :
    load_dimension_tables s =
      (withDims s dp dc dt ds,
       [.mergeDim .product, .mergeDim .customer, .mergeDim .time,
        .mergeDim .store], none) := by
  unfold load_dimension_tables
  rw [h1, h2, h3, h4]
  rfl

theorem load_dim_eval_err1 {s : Store} {e : MergeErr}
    (h1 : mergeDim productSpec s.stg_products s.dim_product = .error e) :
    load_dimension_tables s = (s, [.mergeDim .product], some e) := by
  unfold load_dimension_tables
  rw [h1]

theorem load_dim_eval_err2 {s : Store} {dp : Table} {e : MergeErr}
    (h1 : mergeDim productSpec s.stg_products s.dim_product = .ok dp)
    (h2 : mergeDim customerSpec s.stg_customers s.dim_customer = .error e) :
    load_dimension_tables s =
      (s, [.mergeDim .product, .mergeDim .customer], some e) := by
  unfold load_dimension_tables
  rw [h1, h2]

theorem load_dim_eval_err3 {s : Store} {dp dc : Table} {e : MergeErr}
    (h1 : mergeDim productSpec s.stg_products s.dim_product = .ok dp)
    (h2 : mergeDim customerSpec s.stg_customers s.dim_customer = .ok dc)
    (h3 : mergeDim timeSpec s.stg_time_dimension s.dim_time = .error e) :
    load_dimension_tables s =
      (s, [.mergeDim .product, .mergeDim .customer, .mergeDim .time],
       some e) := by
  unfold load_dimension_tables
  rw [h1, h2, h3]

theorem load_dim_eval_err4 {s : Store} {dp dc dt : Table} {e : MergeErr}
    (h1 : mergeDim productSpec s.stg_products s.dim_product = .ok dp)
    (h2 : mergeDim customerSpec s.stg_customers s.dim_customer = .ok dc)
    (h3 : mergeDim timeSpec s.stg_time_dimension s.dim_time = .ok dt)
    (h4 : mergeDim storeSpec s.stg_stores s.dim_store = .error e) :
    load_dimension_tables s =
      (s, [.mergeDim .product, .mergeDim .customer, .mergeDim .time,
           .mergeDim .store], some e) := by
  unfold load_dimension_tables
  rw [h1, h2, h3, h4]

theorem load_fact_eval_ok {s : Store} {fs fi : Table}
    (h1 : upsertAll salesSpec (salesFks s) [] s.fact_sales s.stg_sales
      = .ok fs)
    (h2 : upsertAll inventorySpec (inventoryFks s) [] s.fact_inventory
      s.stg_inventory = .ok fi) :
    load_fact_tables s =
      (withFacts s fs fi, [.mergeFact .sales, .mergeFact .inventory],
       none) := by
  unfold load_fact_tables
  rw [h1, h2]
  rfl

theorem load_fact_eval_err1 {s : Store} {e : MergeErr}
    (h1 : upsertAll salesSpec (salesFks s) [] s.fact_sales s.stg_sales
      = .error e) :
    load_fact_tables s = (s, [.mergeFact .sales], some e) := by
  unfold load_fact_tables
  rw [h1]

theorem load_fact_eval_err2 {s : Store} {fs : Table} {e : MergeErr}
    (h1 : upsertAll salesSpec (salesFks s) [] s.fact_sales s.stg_sales
      = .ok fs)
    (h2 : upsertAll inventorySpec (inventoryFks s) [] s.fact_inventory
      s.stg_inventory = .error e) :
    load_fact_tables s =
      (s, [.mergeFact .sales, .mergeFact .inventory], some e) := by
  unfold load_fact_tables
  rw [h1, h2]

/-! ## C10 — phase-wide atomicity of the merge phases -/

/-- C10. Each merge phase commits once at the end of its connection, so
a failure of any upsert inside the phase leaves the whole store exactly
as it was: a failed dimension phase changes none of the four dimension
containers, and a failed fact phase changes neither fact container
(already-executed sales upserts are rolled back with it). -/
theorem merge_phase_atomicity :
    ∀ s : Store,
      ((load_dimension_tables s).2.2.isSome → (load_dimension_tables s).1 = s) ∧
      ((load_fact_tables s).2.2.isSome → (load_fact_tables s).1 = s) := by
  intro s
  constructor
  · intro h
    rcases h1 : mergeDim productSpec s.stg_products s.dim_product with e | dp
    · rw [load_dim_eval_err1 h1]
    rcases h2 : mergeDim customerSpec s.stg_customers s.dim_customer with e | dc
    · rw [load_dim_eval_err2 h1 h2]
    rcases h3 : mergeDim timeSpec s.stg_time_dimension s.dim_time with e | dt
    · rw [load_dim_eval_err3 h1 h2 h3]
    rcases h4 : mergeDim storeSpec s.stg_stores s.dim_store with e | ds
    · rw [load_dim_eval_err4 h1 h2 h3 h4]
    rw [load_dim_eval_ok h1 h2 h3 h4] at h
    simp at h
  · intro h
    rcases h1 : upsertAll salesSpec (salesFks s) [] s.fact_sales s.stg_sales
      with e | fs
    · rw [load_fact_eval_err1 h1]
    rcases h2 : upsertAll inventorySpec (inventoryFks s) [] s.fact_inventory
      s.stg_inventory with e | fi
    · rw [load_fact_eval_err2 h1 h2]
    rw [load_fact_eval_ok h1 h2] at h
    simp at h

/-! ## Failure modes of the bulk upsert -/

/-- With pairwise-distinct source keys none of which was already
affected, the `cannot affect row a second time` error is impossible. -/
theorem upsertAll_ne_dupAffect (spec : TableSpec) (fks : Fks) :
    ∀ (rows : List Row) (touched : List Val) (tgt : Table),
    (touched ++ rows.map (rowKey spec)).Nodup →
    upsertAll spec fks touched tgt rows ≠ .error .dupAffect := by
  intro rows
  induction rows with
  | nil =>
    intro touched tgt _ h
    rw [upsertAll_nil] at h
    cases h
  | cons r rs ih =>
    intro touched tgt hnd h
    rw [List.map_cons] at hnd
    have hnd' : ((rowKey spec r :: touched) ++ rs.map (rowKey spec)).Nodup :=
      List.perm_middle.nodup hnd
    rw [upsertAll_cons] at h
    split at h
    · rename_i hm
      rw [List.cons_append, List.nodup_cons] at hnd'
      exact hnd'.1 (List.mem_append_left _ hm)
    · split at h
      · split at h
        · exact ih _ _ hnd' h
        · cases h
      · split at h
        · exact ih _ _ hnd' h
        · cases h

/-- A source row that violates a foreign key over updatable columns
makes the whole statement fail: success is impossible. -/
theorem upsertAll_ne_ok_of_fkBad (spec : TableSpec) (fks : Fks)
    (hfkupd : ∀ p ∈ fks, p.1 ∈ spec.updatable ∧ p.1 < spec.ncols) :
    ∀ (rows : List Row) (touched : List Val) (tgt t' : Table) (r : Row),
    r ∈ rows → ¬fkHolds fks r →
    upsertAll spec fks touched tgt rows ≠ .ok t' := by
  intro rows
  induction rows with
  | nil =>
    intro _ _ _ r hm
    simp at hm
  | cons x xs ih =>
    intro touched tgt t' r hm hbad h
    rw [upsertAll_cons] at h
    split at h
    · cases h
    · split at h
      · rename_i o hf
        split at h
        · rename_i hfk
          rcases List.mem_cons.1 hm with hm | hm
          · subst hm
            apply hbad
            intro p hp
            have h2 := hfk p hp
            rwa [updateRow_getD spec o r (hfkupd p hp).2,
              if_pos (hfkupd p hp).1] at h2
          · exact ih _ _ _ r hm hbad h
        · cases h
      · split at h
        · rename_i hfk
          rcases List.mem_cons.1 hm with hm | hm
          · subst hm
            exact hbad hfk
          · exact ih _ _ _ r hm hbad h
        · cases h

/-! ## C6 — referential precondition with atomic failure -/

/-- C6. A staging sales row whose `product_id` (column 2) is absent from
the product dimension's keys makes the fact-merge phase fail with the
foreign-key error, and both fact containers are left exactly as they
were (the phase's transaction is rolled back, so the fact container
gains zero rows).  Staging sales keys are assumed pairwise distinct, as
a deduplicated source provides. -/
theorem fact_merge_referential_failure :
    ∀ (s : Store) (r : Row), r ∈ s.stg_sales →
    r.getD 2 none ∉ keysOf s.dim_product →
    (s.stg_sales.map (rowKey salesSpec)).Nodup →
    (load_fact_tables s).2.2 = some MergeErr.fkViolation ∧
    (load_fact_tables s).1.fact_sales = s.fact_sales ∧
    (load_fact_tables s).1.fact_inventory = s.fact_inventory := by
  intro s r hm hfk hnd
  have hbad : ¬fkHolds (salesFks s) r := fun hf =>
    hfk (hf (2, keysOf s.dim_product) (by simp [salesFks]))
  have hfkupd : ∀ p ∈ salesFks s,
      p.1 ∈ salesSpec.updatable ∧ p.1 < salesSpec.ncols := by
    intro p hp
    simp only [salesFks, List.mem_cons, List.not_mem_nil, or_false] at hp
    rcases hp with rfl | rfl | rfl | rfl <;>
      exact ⟨by simp [salesSpec], by simp [salesSpec]⟩
  rcases h1 : upsertAll salesSpec (salesFks s) [] s.fact_sales s.stg_sales
    with e | fs
  · have he : e = .fkViolation := by
      cases e
      · exact absurd h1 (upsertAll_ne_dupAffect salesSpec (salesFks s)
          s.stg_sales [] s.fact_sales (by simpa using hnd))
      · rfl
    subst he
    rw [load_fact_eval_err1 h1]
    exact ⟨rfl, rfl, rfl⟩
  · exact absurd h1 (upsertAll_ne_ok_of_fkBad salesSpec (salesFks s) hfkupd
      s.stg_sales [] s.fact_sales fs r hm hbad)

/-! ## C3 — deduplication: dimensions yes, facts no -/

/-- C3 amended. The dimension merges read distinct rows — duplicate
full-row copies in staging are irrelevant to them — but the fact merges
read all staging rows without deduplication (`SELECT *`), so duplicate
identical full-row copies of a staging sales row make the fact phase
fail (`ON CONFLICT` cannot affect the same row twice) and roll back,
rather than contribute a single row. -/
theorem merge_dedup_dims_not_facts :
    (∀ spec ∈ dimSpecs, ∀ stg tgt : Table,
      mergeDim spec stg tgt = mergeDim spec stg.dedup tgt) ∧
    (∀ s : Store, ¬s.stg_sales.Nodup →
      (load_fact_tables s).2.2.isSome ∧ (load_fact_tables s).1 = s) := by
  constructor
  · intro spec _ stg tgt
    unfold mergeDim
    rw [List.dedup_idem]
  · intro s hdup
    rcases h1 : upsertAll salesSpec (salesFks s) [] s.fact_sales s.stg_sales
      with e | fs
    · rw [load_fact_eval_err1 h1]
      exact ⟨rfl, rfl⟩
    · obtain ⟨hnd, -, -, -⟩ :=
        upsertAll_ok_inv salesSpec (salesFks s) (by decide) s.stg_sales []
          s.fact_sales fs h1
      exact absurd hnd.of_map hdup

/-! ## C4 — the staging load is transactional -/

/-- C4 amended. In `load_csv_to_staging` the truncate and the bulk
insert run on one connection whose implicit transaction is committed
only after both statements; when the bulk insert is rejected, the commit
is never reached and the transaction rolls back, so the call returns
with an error and the staging container still holds its previous
snapshot — the whole store is unchanged, never truncated-but-partially
populated. -/
theorem staging_load_rollback :
    ∀ (csv : Csv) (t : StgTable) (s : Store),
    (load_csv_to_staging csv t s).err.isSome →
    (load_csv_to_staging csv t s).store = s := by
  intro csv t s h
  by_cases hc : csvOk csv t
  · rw [load_csv_ok s hc] at h
    simp at h
  · rw [load_csv_bad s hc]

/-! ## C8 — return value of the staging load -/

/-- C8 amended. A completed `load_csv_to_staging` call returns `None`
(the function has no `return` statement); the number of loaded rows —
the number of data rows of the source file — appears only in the
printed success message. -/
theorem staging_load_returns_none :
    ∀ (csv : Csv) (t : StgTable) (s : Store),
    (load_csv_to_staging csv t s).err = none →
    (load_csv_to_staging csv t s).ret = none ∧
    (load_csv_to_staging csv t s).printed = some csv.rows.length := by
  intro csv t s h
  by_cases hc : csvOk csv t
  · rw [load_csv_ok s hc]
    exact ⟨rfl, rfl⟩
  · rw [load_csv_bad s hc] at h
    cases h

/-! ## C9 — header flexibility of the staging load -/

/-- C9 amended. A source file whose header names exactly the staging
container's column set, in any order, loads successfully, and every row
is loaded by column name: each staging column receives the row value at
the position where the file's header names that column.  (A header
column absent from the staging table — in particular any strict
superset — is rejected instead, see the counterexample.) -/
theorem staging_load_by_name :
    ∀ (csv : Csv) (t : StgTable) (s : Store),
    csv.header.Nodup →
    (∀ c ∈ csv.header, c ∈ stgCols t) →
    (∀ c ∈ stgCols t, c ∈ csv.header) →
    (∀ row ∈ csv.rows, row.length = csv.header.length) →
    (load_csv_to_staging csv t s).err = none ∧
    (load_csv_to_staging csv t s).store.getStg t =
      csv.rows.map fun row =>
        (stgCols t).map fun c =>
          (csv.header.indexOf? c).bind fun i => row[i]? := by
  intro csv t s hnd hsub _ hlen
  have hc : csvOk csv t := ⟨hnd, hsub, hlen⟩
  rw [load_csv_ok s hc]
  refine ⟨rfl, ?_⟩
  show (s.setStg t (loadedRows csv t)).getStg t = _
  rw [getStg_setStg]
  rfl

/-! ## Concrete sample data for witnesses and counterexamples -/

/-- A pre-existing `dim_product` row, key `P0001`, created 2020-01-01. -/
def pOld : Row :=
  [some "P0001", some "Old Widget", some "Toys", some "Basic", some "Acme",
   some "8.00", some "4.00", some "2020-01-01", some "2020-01-01"]

/-- A staging row for the same key `P0001` with new attribute values. -/
def pNew : Row :=
  [some "P0001", some "Widget", some "Toys", some "Basic", some "Acme",
   some "9.99", some "5.00", some "2024-01-05", some "2024-01-05"]

/-- A staging row with a fresh key `P0002`. -/
def pG : Row :=
  [some "P0002", some "Gadget", some "Toys", some "Basic", some "Acme",
   some "19.99", some "9.00", some "2024-01-05", some "2024-01-05"]

/-- A pre-existing `dim_product` row with key `P0003`, absent from
staging. -/
def qRow : Row :=
  [some "P0003", some "Thing", some "Toys", some "Basic", some "Acme",
   some "5.00", some "2.00", some "2021-01-01", some "2021-01-01"]

/-- The row the product upsert writes for `P0001`: staging values on all
updatable columns, the old `created_date` (2020-01-01) preserved. -/
def pMerged : Row :=
  [some "P0001", some "Widget", some "Toys", some "Basic", some "Acme",
   some "9.99", some "5.00", some "2020-01-01", some "2024-01-05"]

/-- A staging sales row whose four dimension references all resolve. -/
def saleRow : Row :=
  [some "S0001", some "20240101", some "P0001", some "C0001", some "ST001",
   some "1", some "9.99", some "9.99", some "0.00", some "9.99",
   some "card", some "2024-01-01 10:00:00"]

/-- A staging sales row referencing the nonexistent product `P9999`. -/
def saleBad : Row :=
  [some "S0002", some "20240101", some "P9999", some "C0001", some "ST001",
   some "1", some "9.99", some "9.99", some "0.00", some "9.99",
   some "card", some "2024-01-01 10:00:00"]

/-- A staging inventory row referencing the nonexistent product
`P9999`. -/
def invBad : Row :=
  [some "I0001", some "20240101", some "P9999", some "ST001", some "10",
   some "8", some "0", some "2", some "0", some "5", some "20"]

/-- The store with every container empty. -/
def emptyStore : Store := ⟨[], [], [], [], [], [], [], [], [], [], [], []⟩

/-- Minimal dimension rows carrying just the keys the sample fact rows
reference. -/
def tinyDims : Store :=
  { emptyStore with
    dim_time := [[some "20240101"]]
    dim_product := [[some "P0001"]]
    dim_customer := [[some "C0001"]]
    dim_store := [[some "ST001"]] }

/-- Store exercising duplicate full-row staging copies: `stg_products`
and `stg_sales` each hold two identical copies of one row. -/
def s3c : Store :=
  { tinyDims with
    stg_products := [pG, pG]
    stg_sales := [saleRow, saleRow] }

/-- A source file whose header names a column the staging table does not
have. -/
def badCsv : Csv := ⟨["product_id", "bogus_column"], [["P0001", "x"]]⟩

/-- Store with a pre-existing staging snapshot, for the rollback
counterexample. -/
def s4c : Store := { emptyStore with stg_products := [pOld] }

/-- A well-formed one-row products file in table column order. -/
def okCsv : Csv :=
  ⟨stgCols .products,
   [["P0001", "Widget", "Toys", "Basic", "Acme", "9.99", "5.00",
     "2024-01-05", "2024-01-05"]]⟩

/-- The same file with its columns (and each row) in reverse order. -/
def revCsv : Csv :=
  ⟨(stgCols .products).reverse,
   [["2024-01-05", "2024-01-05", "5.00", "9.99", "Acme", "Basic", "Toys",
     "Widget", "P0001"]]⟩

/-- Store whose sales staging row is fine but whose inventory staging
row violates its product foreign key. -/
def s10c : Store :=
  { tinyDims with
    stg_sales := [saleRow]
    stg_inventory := [invBad] }

/-- Store with one staging sales row referencing a missing product. -/
def s6w : Store := { emptyStore with stg_sales := [saleBad] }

/-! ## Witnesses and counterexamples -/

/-- C1 witness: merging staging `[pNew, pG]` into target `[pOld]`
(update case at key `P0001`). -/
theorem dim_merge_upsert_postcondition_witness :
    ∃ cur, findRow productSpec (rowKey productSpec pNew) [pMerged, pG] =
        some cur ∧
      (∀ i ∈ productSpec.updatable, cur.getD i none = pNew.getD i none) ∧
      (∀ i, i < productSpec.ncols → i ∉ productSpec.updatable →
        cur.getD i none = pOld.getD i none) :=
  (dim_merge_upsert_postcondition productSpec (by decide) [pNew, pG] [pOld]
    [pMerged, pG] (by rfl) pNew (by decide)).1 pOld (by decide)

/-- C2 witness: the target row `qRow`, whose key is absent from staging,
survives the merge untouched. -/
theorem dim_merge_no_deletion_witness :
    qRow ∈ [pMerged, qRow] ∧
      [pMerged, qRow].filter
          (fun o => rowKey productSpec o == rowKey productSpec qRow) =
        [pOld, qRow].filter
          (fun o => rowKey productSpec o == rowKey productSpec qRow) :=
  (dim_merge_no_deletion productSpec (by decide) [pNew] [pOld, qRow]
    [pMerged, qRow] (by rfl) qRow (by decide)).1 (by decide)

/-- C3 counterexample: on `s3c`, whose staging holds two identical
copies of one product row and two identical copies of one sales row,
the dimension merge deduplicates and succeeds (one `P0002` row is
inserted), but the fact merge — contrary to the claim that it follows
the identical deduplicating algorithm — fails with the
affect-row-twice error and inserts nothing. -/
theorem fact_merge_no_dedup_counterexample :
    (load_dimension_tables s3c).2.2 = none ∧
    (load_dimension_tables s3c).1.dim_product = [[some "P0001"], pG] ∧
    (load_fact_tables s3c).2.2 = some MergeErr.dupAffect ∧
    (load_fact_tables s3c).1.fact_sales = [] := by
  decide

/-- C3 witness (amended claim, fact half, at `s3c`). -/
theorem merge_dedup_dims_not_facts_witness :
    (load_fact_tables s3c).2.2.isSome ∧ (load_fact_tables s3c).1 = s3c :=
  merge_dedup_dims_not_facts.2 s3c (by decide)

/-- C4 counterexample: a failing bulk insert (unknown column) leaves the
staging container holding its previous snapshot `[pOld]` — neither
truncated nor partially populated — refuting the claimed
truncated-and-partial outcome. -/
theorem staging_load_nonatomic_counterexample :
    (load_csv_to_staging badCsv .products s4c).err.isSome ∧
    (load_csv_to_staging badCsv .products s4c).store.stg_products = [pOld] ∧
    s4c.stg_products = [pOld] := by
  decide

/-- C4 witness (amended claim at the same failing input). -/
theorem staging_load_rollback_witness :
    (load_csv_to_staging badCsv .products s4c).store = s4c :=
  staging_load_rollback badCsv .products s4c (by decide)

/-- C6 witness: one staging sales row referencing the missing product
`P9999`; the fact phase fails with the foreign-key error and both fact
containers stay empty. -/
theorem fact_merge_referential_failure_witness :
    (load_fact_tables s6w).2.2 = some MergeErr.fkViolation ∧
    (load_fact_tables s6w).1.fact_sales = s6w.fact_sales ∧
    (load_fact_tables s6w).1.fact_inventory = s6w.fact_inventory :=
  fact_merge_referential_failure s6w saleBad (by decide) (by decide)
    (by decide)

/-- C8 counterexample: a successfully completed staging load of a
one-row file returns `None`, not the row count `1` the claim
promises. -/
theorem staging_load_return_counterexample :
    (load_csv_to_staging okCsv .products emptyStore).err = none ∧
    (load_csv_to_staging okCsv .products emptyStore).ret ≠
      some okCsv.rows.length := by
  decide

/-- C8 witness (amended claim at `okCsv`). -/
theorem staging_load_returns_none_witness :
    (load_csv_to_staging okCsv .products emptyStore).ret = none ∧
    (load_csv_to_staging okCsv .products emptyStore).printed =
      some okCsv.rows.length :=
  staging_load_returns_none okCsv .products emptyStore (by decide)

/-- C9 counterexample: a header that names a strict superset of the
staging columns (extra column `bogus_column`) makes the load fail,
refuting "extra columns are tolerated". -/
theorem staging_load_superset_counterexample :
    (load_csv_to_staging
      ⟨stgCols .products ++ ["bogus_column"],
       [["P0001", "Widget", "Toys", "Basic", "Acme", "9.99", "5.00",
         "2024-01-05", "2024-01-05", "x"]]⟩ .products emptyStore).err =
      some LoadErr.storageError := by
  decide

/-- C9 witness (amended claim): the fully reversed header loads
successfully, and each staging column picks its value by name. -/
theorem staging_load_by_name_witness :
    (load_csv_to_staging revCsv .products emptyStore).err = none ∧
    (load_csv_to_staging revCsv .products emptyStore).store.getStg
        .products =
      revCsv.rows.map fun row =>
        (stgCols .products).map fun c =>
          (revCsv.header.indexOf? c).bind fun i => row[i]? :=
  staging_load_by_name revCsv .products emptyStore (by decide) (by decide)
    (by decide) (by decide)

/-- C10 witness: on `s10c` the sales upsert alone would succeed, but the
inventory upsert's foreign-key failure rolls the whole fact phase back,
so the store is unchanged. -/
theorem merge_phase_atomicity_witness :
    (load_fact_tables s10c).1 = s10c :=
  (merge_phase_atomicity s10c).2 (by decide)

/-! ## Evaluation of `run_etl` by branch -/

/-- The store after all six staging loads succeed. -/
def stagedStore (files : EtlFiles) (s : Store) : Store :=
  (((((s.setStg .products (loadedRows files.products .products)).setStg
      .customers (loadedRows files.customers .customers)).setStg
      .timeDim (loadedRows files.time_dimension .timeDim)).setStg
      .stores (loadedRows files.stores .stores)).setStg
      .sales (loadedRows files.sales .sales)).setStg
      .inventory (loadedRows files.inventory .inventory)

theorem runMergePhases_eval_dimErr {s σ' : Store} {tr : List Ev} {e : MergeErr}
    (h : load_dimension_tables s = (σ', tr, some e)) :
    runMergePhases s = (σ', stagingTrace ++ tr, some (.merge e)) := by
  simp only [runMergePhases]
  rw [h]

theorem runMergePhases_eval_factErr {s σd σ' : Store} {trd trf : List Ev}
    {e : MergeErr}
    (hd : load_dimension_tables s = (σd, trd, none))
    (hf : load_fact_tables σd = (σ', trf, some e)) :
    runMergePhases s = (σ', stagingTrace ++ trd ++ trf, some (.merge e)) := by
  simp only [runMergePhases]
  rw [hd, hf]

theorem runMergePhases_eval_ok {s σd σ' : Store} {trd trf : List Ev}
    (hd : load_dimension_tables s = (σd, trd, none))
    (hf : load_fact_tables σd = (σ', trf, none)) :
    runMergePhases s = (σ', stagingTrace ++ trd ++ trf, none) := by
  simp only [runMergePhases]
  rw [hd, hf]

theorem run_etl_eval_stageErr1 {files : EtlFiles} (s : Store)
    (h1 : ¬csvOk files.products .products) :
    run_etl files s = (s, [.stage .products], some (.load .storageError)) := by
  simp only [run_etl]
  rw [load_csv_bad _ h1]

theorem run_etl_eval_stageErr2 {files : EtlFiles} (s : Store)
    (h1 : csvOk files.products .products)
    (h2 : ¬csvOk files.customers .customers) :
    run_etl files s =
      (s.setStg .products (loadedRows files.products .products),
       [.stage .products, .stage .customers],
       some (.load .storageError)) := by
  simp only [run_etl]
  rw [load_csv_ok _ h1]
  dsimp only
  rw [load_csv_bad _ h2]

theorem run_etl_eval_stageErr3 {files : EtlFiles} (s : Store)
    (h1 : csvOk files.products .products)
    (h2 : csvOk files.customers .customers)
    (h3 : ¬csvOk files.time_dimension .timeDim) :
    run_etl files s =
      ((s.setStg .products (loadedRows files.products .products)).setStg
        .customers (loadedRows files.customers .customers),
       [.stage .products, .stage .customers, .stage .timeDim],
       some (.load .storageError)) := by
  simp only [run_etl]
  rw [load_csv_ok _ h1]
  dsimp only
  rw [load_csv_ok _ h2]
  dsimp only
  rw [load_csv_bad _ h3]

theorem run_etl_eval_stageErr4 {files : EtlFiles} (s : Store)
    (h1 : csvOk files.products .products)
    (h2 : csvOk files.customers .customers)
    (h3 : csvOk files.time_dimension .timeDim)
    (h4 : ¬csvOk files.stores .stores) :
    run_etl files s =
      (((s.setStg .products (loadedRows files.products .products)).setStg
        .customers (loadedRows files.customers .customers)).setStg
        .timeDim (loadedRows files.time_dimension .timeDim),
       [.stage .products, .stage .customers, .stage .timeDim, .stage .stores],
       some (.load .storageError)) := by
  simp only [run_etl]
  rw [load_csv_ok _ h1]
  dsimp only
  rw [load_csv_ok _ h2]
  dsimp only
  rw [load_csv_ok _ h3]
  dsimp only
  rw [load_csv_bad _ h4]

theorem run_etl_eval_stageErr5 {files : EtlFiles} (s : Store)
    (h1 : csvOk files.products .products)
    (h2 : csvOk files.customers .customers)
    (h3 : csvOk files.time_dimension .timeDim)
    (h4 : csvOk files.stores .stores)
    (h5 : ¬csvOk files.sales .sales) :
    run_etl files s =
      ((((s.setStg .products (loadedRows files.products .products)).setStg
        .customers (loadedRows files.customers .customers)).setStg
        .timeDim (loadedRows files.time_dimension .timeDim)).setStg
        .stores (loadedRows files.stores .stores),
       [.stage .products, .stage .customers, .stage .timeDim, .stage .stores,
        .stage .sales],
       some (.load .storageError)) := by
  simp only [run_etl]
  rw [load_csv_ok _ h1]
  dsimp only
  rw [load_csv_ok _ h2]
  dsimp only
  rw [load_csv_ok _ h3]
  dsimp only
  rw [load_csv_ok _ h4]
  dsimp only
  rw [load_csv_bad _ h5]

theorem run_etl_eval_stageErr6 {files : EtlFiles} (s : Store)
    (h1 : csvOk files.products .products)
    (h2 : csvOk files.customers .customers)
    (h3 : csvOk files.time_dimension .timeDim)
    (h4 : csvOk files.stores .stores)
    (h5 : csvOk files.sales .sales)
    (h6 : ¬csvOk files.inventory .inventory) :
    run_etl files s =
      (((((s.setStg .products (loadedRows files.products .products)).setStg
        .customers (loadedRows files.customers .customers)).setStg
        .timeDim (loadedRows files.time_dimension .timeDim)).setStg
        .stores (loadedRows files.stores .stores)).setStg
        .sales (loadedRows files.sales .sales),
       stagingTrace, some (.load .storageError)) := by
  simp only [run_etl]
  rw [load_csv_ok _ h1]
  dsimp only
  rw [load_csv_ok _ h2]
  dsimp only
  rw [load_csv_ok _ h3]
  dsimp only
  rw [load_csv_ok _ h4]
  dsimp only
  rw [load_csv_ok _ h5]
  dsimp only
  rw [load_csv_bad _ h6]
  rfl

theorem run_etl_eval_stageOk {files : EtlFiles} (s : Store)
    (h1 : csvOk files.products .products)
    (h2 : csvOk files.customers .customers)
    (h3 : csvOk files.time_dimension .timeDim)
    (h4 : csvOk files.stores .stores)
    (h5 : csvOk files.sales .sales)
    (h6 : csvOk files.inventory .inventory) :
    run_etl files s = runMergePhases (stagedStore files s) := by
  simp only [run_etl]
  rw [load_csv_ok _ h1]
  dsimp only
  rw [load_csv_ok _ h2]
  dsimp only
  rw [load_csv_ok _ h3]
  dsimp only
  rw [load_csv_ok _ h4]
  dsimp only
  rw [load_csv_ok _ h5]
  dsimp only
  rw [load_csv_ok _ h6]
  rfl

/-! ## C7 — phase ordering of the orchestrator -/

/-- Every trace `run_etl` can produce is a prefix of the canonical
twelve-statement trace. -/
theorem run_etl_trace_prefix (files : EtlFiles) (s : Store) :
    ∃ n, n ≤ 12 ∧ (run_etl files s).2.1 = canonicalTrace.take n := by
  by_cases h1 : csvOk files.products .products
  case neg => exact ⟨1, by omega, by rw [run_etl_eval_stageErr1 s h1]; rfl⟩
  by_cases h2 : csvOk files.customers .customers
  case neg => exact ⟨2, by omega, by rw [run_etl_eval_stageErr2 s h1 h2]; rfl⟩
  by_cases h3 : csvOk files.time_dimension .timeDim
  case neg => exact ⟨3, by omega, by rw [run_etl_eval_stageErr3 s h1 h2 h3]; rfl⟩
  by_cases h4 : csvOk files.stores .stores
  case neg => exact ⟨4, by omega, by rw [run_etl_eval_stageErr4 s h1 h2 h3 h4]; rfl⟩
  by_cases h5 : csvOk files.sales .sales
  case neg =>
    exact ⟨5, by omega, by rw [run_etl_eval_stageErr5 s h1 h2 h3 h4 h5]; rfl⟩
  by_cases h6 : csvOk files.inventory .inventory
  case neg =>
    exact ⟨6, by omega, by rw [run_etl_eval_stageErr6 s h1 h2 h3 h4 h5 h6]; rfl⟩
  rw [run_etl_eval_stageOk s h1 h2 h3 h4 h5 h6]
  rcases hd1 : mergeDim productSpec (stagedStore files s).stg_products
      (stagedStore files s).dim_product with e | dp
  · exact ⟨7, by omega,
      by rw [runMergePhases_eval_dimErr (load_dim_eval_err1 hd1)]; rfl⟩
  rcases hd2 : mergeDim customerSpec (stagedStore files s).stg_customers
      (stagedStore files s).dim_customer with e | dc
  · exact ⟨8, by omega,
      by rw [runMergePhases_eval_dimErr (load_dim_eval_err2 hd1 hd2)]; rfl⟩
  rcases hd3 : mergeDim timeSpec (stagedStore files s).stg_time_dimension
      (stagedStore files s).dim_time with e | dt
  · exact ⟨9, by omega,
      by rw [runMergePhases_eval_dimErr (load_dim_eval_err3 hd1 hd2 hd3)]; rfl⟩
  rcases hd4 : mergeDim storeSpec (stagedStore files s).stg_stores
      (stagedStore files s).dim_store with e | ds
  · exact ⟨10, by omega,
      by rw [runMergePhases_eval_dimErr (load_dim_eval_err4 hd1 hd2 hd3 hd4)]; rfl⟩
  have hdim := load_dim_eval_ok hd1 hd2 hd3 hd4
  rcases hf1 : upsertAll salesSpec
      (salesFks (withDims (stagedStore files s) dp dc dt ds)) []
      (withDims (stagedStore files s) dp dc dt ds).fact_sales
      (withDims (stagedStore files s) dp dc dt ds).stg_sales with e | fs
  · exact ⟨11, by omega,
      by rw [runMergePhases_eval_factErr hdim (load_fact_eval_err1 hf1)]; rfl⟩
  rcases hf2 : upsertAll inventorySpec
      (inventoryFks (withDims (stagedStore files s) dp dc dt ds)) []
      (withDims (stagedStore files s) dp dc dt ds).fact_inventory
      (withDims (stagedStore files s) dp dc dt ds).stg_inventory with e | fi
  · exact ⟨12, by omega,
      by rw [runMergePhases_eval_factErr hdim (load_fact_eval_err2 hf1 hf2)]; rfl⟩
  · exact ⟨12, by omega,
      by rw [runMergePhases_eval_ok hdim (load_fact_eval_ok hf1 hf2)]; rfl⟩

theorem canonical_stage_index (t : StgTable) :
    ∃ i, i < 6 ∧ canonicalTrace[i]? = some (.stage t) := by
  cases t
  · exact ⟨0, by omega, rfl⟩
  · exact ⟨1, by omega, rfl⟩
  · exact ⟨2, by omega, rfl⟩
  · exact ⟨3, by omega, rfl⟩
  · exact ⟨4, by omega, rfl⟩
  · exact ⟨5, by omega, rfl⟩

theorem canonical_dim_index (d : DimT) :
    ∃ i, 6 ≤ i ∧ i < 10 ∧ canonicalTrace[i]? = some (.mergeDim d) := by
  cases d
  · exact ⟨6, by omega, by omega, rfl⟩
  · exact ⟨7, by omega, by omega, rfl⟩
  · exact ⟨8, by omega, by omega, rfl⟩
  · exact ⟨9, by omega, by omega, rfl⟩

/-! ## C5 — idempotence of the full pipeline -/

theorem loadedRows_length (csv : Csv) (t : StgTable) :
    ∀ r ∈ loadedRows csv t, r.length = (stgCols t).length := by
  intro r hm
  obtain ⟨row, -, rfl⟩ := List.mem_map.1 hm
  simp [insertByName]

/-- Re-running a dimension upsert on its own result returns the result
unchanged. -/
theorem mergeDim_idem (spec : TableSpec) (hwf : spec.keyIdx < spec.ncols)
    (stg tgt t' : Table)
    (hlen : ∀ r ∈ stg.dedup, r.length = spec.ncols)
    (h : mergeDim spec stg tgt = .ok t') :
    mergeDim spec stg t' = .ok t' := by
  unfold mergeDim at *
  exact upsertAll_idem spec [] hwf (by simp) stg.dedup tgt t' hlen h

theorem salesFks_updatable (s : Store) : ∀ p ∈ salesFks s,
    p.1 ∈ salesSpec.updatable ∧ p.1 < salesSpec.ncols := by
  intro p hp
  simp only [salesFks, List.mem_cons, List.not_mem_nil, or_false] at hp
  rcases hp with rfl | rfl | rfl | rfl <;>
    exact ⟨by simp [salesSpec], by simp [salesSpec]⟩

theorem inventoryFks_updatable (s : Store) : ∀ p ∈ inventoryFks s,
    p.1 ∈ inventorySpec.updatable ∧ p.1 < inventorySpec.ncols := by
  intro p hp
  simp only [inventoryFks, List.mem_cons, List.not_mem_nil, or_false] at hp
  rcases hp with rfl | rfl | rfl <;>
    exact ⟨by simp [inventorySpec], by simp [inventorySpec]⟩

/-- A second full pipeline run started from the outcome of the merge
phases reproduces that outcome, provided the store's staging containers
already hold exactly what the six (well-formed) source files load. -/
theorem run_etl_fixpoint (files : EtlFiles) (σ : Store)
    (h1 : csvOk files.products .products)
    (h2 : csvOk files.customers .customers)
    (h3 : csvOk files.time_dimension .timeDim)
    (h4 : csvOk files.stores .stores)
    (h5 : csvOk files.sales .sales)
    (h6 : csvOk files.inventory .inventory)
    (e1 : σ.stg_products = loadedRows files.products .products)
    (e2 : σ.stg_customers = loadedRows files.customers .customers)
    (e3 : σ.stg_time_dimension = loadedRows files.time_dimension .timeDim)
    (e4 : σ.stg_stores = loadedRows files.stores .stores)
    (e5 : σ.stg_sales = loadedRows files.sales .sales)
    (e6 : σ.stg_inventory = loadedRows files.inventory .inventory) :
    (run_etl files (runMergePhases σ).1).1 = (runMergePhases σ).1 := by
  have hA : stagedStore files σ = σ := by
    obtain ⟨g1, g2, g3, g4, g5, g6, A, B, C, D, E, F⟩ := σ
    dsimp only at e1 e2 e3 e4 e5 e6
    subst e1 e2 e3 e4 e5 e6
    rfl
  have hB : ∀ dp dc dt ds,
      stagedStore files (withDims σ dp dc dt ds) = withDims σ dp dc dt ds := by
    intro dp dc dt ds
    obtain ⟨g1, g2, g3, g4, g5, g6, A, B, C, D, E, F⟩ := σ
    dsimp only at e1 e2 e3 e4 e5 e6
    subst e1 e2 e3 e4 e5 e6
    rfl
  have hC : ∀ dp dc dt ds fs fi,
      stagedStore files (withFacts (withDims σ dp dc dt ds) fs fi) =
        withFacts (withDims σ dp dc dt ds) fs fi := by
    intro dp dc dt ds fs fi
    obtain ⟨g1, g2, g3, g4, g5, g6, A, B, C, D, E, F⟩ := σ
    dsimp only at e1 e2 e3 e4 e5 e6
    subst e1 e2 e3 e4 e5 e6
    rfl
  rcases hd1 : mergeDim productSpec σ.stg_products σ.dim_product with e | dp
  · rw [runMergePhases_eval_dimErr (load_dim_eval_err1 hd1)]
    dsimp only
    rw [run_etl_eval_stageOk σ h1 h2 h3 h4 h5 h6, hA,
      runMergePhases_eval_dimErr (load_dim_eval_err1 hd1)]
  rcases hd2 : mergeDim customerSpec σ.stg_customers σ.dim_customer with e | dc
  · rw [runMergePhases_eval_dimErr (load_dim_eval_err2 hd1 hd2)]
    dsimp only
    rw [run_etl_eval_stageOk σ h1 h2 h3 h4 h5 h6, hA,
      runMergePhases_eval_dimErr (load_dim_eval_err2 hd1 hd2)]
  rcases hd3 : mergeDim timeSpec σ.stg_time_dimension σ.dim_time with e | dt
  · rw [runMergePhases_eval_dimErr (load_dim_eval_err3 hd1 hd2 hd3)]
    dsimp only
    rw [run_etl_eval_stageOk σ h1 h2 h3 h4 h5 h6, hA,
      runMergePhases_eval_dimErr (load_dim_eval_err3 hd1 hd2 hd3)]
  rcases hd4 : mergeDim storeSpec σ.stg_stores σ.dim_store with e | ds
  · rw [runMergePhases_eval_dimErr (load_dim_eval_err4 hd1 hd2 hd3 hd4)]
    dsimp only
    rw [run_etl_eval_stageOk σ h1 h2 h3 h4 h5 h6, hA,
      runMergePhases_eval_dimErr (load_dim_eval_err4 hd1 hd2 hd3 hd4)]
  have hlen1 : ∀ r ∈ σ.stg_products.dedup, r.length = productSpec.ncols := by
    rw [e1]
    intro r hm
    rw [loadedRows_length _ _ r (List.mem_dedup.1 hm)]
    rfl
  have hlen2 : ∀ r ∈ σ.stg_customers.dedup,
      r.length = customerSpec.ncols := by
    rw [e2]
    intro r hm
    rw [loadedRows_length _ _ r (List.mem_dedup.1 hm)]
    rfl
  have hlen3 : ∀ r ∈ σ.stg_time_dimension.dedup,
      r.length = timeSpec.ncols := by
    rw [e3]
    intro r hm
    rw [loadedRows_length _ _ r (List.mem_dedup.1 hm)]
    rfl
  have hlen4 : ∀ r ∈ σ.stg_stores.dedup, r.length = storeSpec.ncols := by
    rw [e4]
    intro r hm
    rw [loadedRows_length _ _ r (List.mem_dedup.1 hm)]
    rfl
  have hlen5 : ∀ r ∈ σ.stg_sales, r.length = salesSpec.ncols := by
    rw [e5]
    intro r hm
    rw [loadedRows_length _ _ r hm]
    rfl
  have hlen6 : ∀ r ∈ σ.stg_inventory, r.length = inventorySpec.ncols := by
    rw [e6]
    intro r hm
    rw [loadedRows_length _ _ r hm]
    rfl
  have hd1' := mergeDim_idem productSpec (by decide) _ _ _ hlen1 hd1
  have hd2' := mergeDim_idem customerSpec (by decide) _ _ _ hlen2 hd2
  have hd3' := mergeDim_idem timeSpec (by decide) _ _ _ hlen3 hd3
  have hd4' := mergeDim_idem storeSpec (by decide) _ _ _ hlen4 hd4
  have hdim := load_dim_eval_ok hd1 hd2 hd3 hd4
  have hdim2 : load_dimension_tables (withDims σ dp dc dt ds) =
      (withDims σ dp dc dt ds,
       [.mergeDim .product, .mergeDim .customer, .mergeDim .time,
        .mergeDim .store], none) :=
    load_dim_eval_ok hd1' hd2' hd3' hd4'
  rcases hf1 : upsertAll salesSpec (salesFks (withDims σ dp dc dt ds)) []
      (withDims σ dp dc dt ds).fact_sales
      (withDims σ dp dc dt ds).stg_sales with e | fs
  · rw [runMergePhases_eval_factErr hdim (load_fact_eval_err1 hf1)]
    dsimp only
    rw [run_etl_eval_stageOk _ h1 h2 h3 h4 h5 h6, hB dp dc dt ds,
      runMergePhases_eval_factErr hdim2 (load_fact_eval_err1 hf1)]
  rcases hf2 : upsertAll inventorySpec
      (inventoryFks (withDims σ dp dc dt ds)) []
      (withDims σ dp dc dt ds).fact_inventory
      (withDims σ dp dc dt ds).stg_inventory with e | fi
  · rw [runMergePhases_eval_factErr hdim (load_fact_eval_err2 hf1 hf2)]
    dsimp only
    rw [run_etl_eval_stageOk _ h1 h2 h3 h4 h5 h6, hB dp dc dt ds,
      runMergePhases_eval_factErr hdim2 (load_fact_eval_err2 hf1 hf2)]
  · rw [runMergePhases_eval_ok hdim (load_fact_eval_ok hf1 hf2)]
    dsimp only
    rw [run_etl_eval_stageOk _ h1 h2 h3 h4 h5 h6, hC dp dc dt ds fs fi]
    have hdim3 : load_dimension_tables
        (withFacts (withDims σ dp dc dt ds) fs fi) =
        (withFacts (withDims σ dp dc dt ds) fs fi,
         [.mergeDim .product, .mergeDim .customer, .mergeDim .time,
          .mergeDim .store], none) :=
      load_dim_eval_ok hd1' hd2' hd3' hd4'
    have hf1' : upsertAll salesSpec
        (salesFks (withFacts (withDims σ dp dc dt ds) fs fi)) [] fs
        (withFacts (withDims σ dp dc dt ds) fs fi).stg_sales = .ok fs :=
      upsertAll_idem salesSpec (salesFks (withDims σ dp dc dt ds))
        (by decide) (salesFks_updatable _)
        (withDims σ dp dc dt ds).stg_sales
        (withDims σ dp dc dt ds).fact_sales fs hlen5 hf1
    have hf2' : upsertAll inventorySpec
        (inventoryFks (withFacts (withDims σ dp dc dt ds) fs fi)) [] fi
        (withFacts (withDims σ dp dc dt ds) fs fi).stg_inventory = .ok fi :=
      upsertAll_idem inventorySpec (inventoryFks (withDims σ dp dc dt ds))
        (by decide) (inventoryFks_updatable _)
        (withDims σ dp dc dt ds).stg_inventory
        (withDims σ dp dc dt ds).fact_inventory fi hlen6 hf2
    have hfact2 : load_fact_tables
        (withFacts (withDims σ dp dc dt ds) fs fi) =
        (withFacts (withDims σ dp dc dt ds) fs fi,
         [.mergeFact .sales, .mergeFact .inventory], none) :=
      load_fact_eval_ok hf1' hf2'
    rw [runMergePhases_eval_ok hdim3 hfact2]

/-- C5. Idempotence: running the full pipeline (stage, merge dimensions,
merge facts) a second time with the same source files, starting from the
store the first run produced, reproduces exactly that store — identical
dimension and fact (and staging) container contents. -/
theorem run_etl_idempotent :
    ∀ (files : EtlFiles) (s : Store),
    (run_etl files (run_etl files s).1).1 = (run_etl files s).1 := by
  intro files s
  by_cases h1 : csvOk files.products .products
  case neg =>
    rw [run_etl_eval_stageErr1 s h1]
    dsimp only
    rw [run_etl_eval_stageErr1 s h1]
  by_cases h2 : csvOk files.customers .customers
  case neg =>
    rw [run_etl_eval_stageErr2 s h1 h2]
    dsimp only
    rw [run_etl_eval_stageErr2 _ h1 h2]
    dsimp only [Store.setStg]
  by_cases h3 : csvOk files.time_dimension .timeDim
  case neg =>
    rw [run_etl_eval_stageErr3 s h1 h2 h3]
    dsimp only
    rw [run_etl_eval_stageErr3 _ h1 h2 h3]
    dsimp only [Store.setStg]
  by_cases h4 : csvOk files.stores .stores
  case neg =>
    rw [run_etl_eval_stageErr4 s h1 h2 h3 h4]
    dsimp only
    rw [run_etl_eval_stageErr4 _ h1 h2 h3 h4]
    dsimp only [Store.setStg]
  by_cases h5 : csvOk files.sales .sales
  case neg =>
    rw [run_etl_eval_stageErr5 s h1 h2 h3 h4 h5]
    dsimp only
    rw [run_etl_eval_stageErr5 _ h1 h2 h3 h4 h5]
    dsimp only [Store.setStg]
  by_cases h6 : csvOk files.inventory .inventory
  case neg =>
    rw [run_etl_eval_stageErr6 s h1 h2 h3 h4 h5 h6]
    dsimp only
    rw [run_etl_eval_stageErr6 _ h1 h2 h3 h4 h5 h6]
    dsimp only [Store.setStg]
  rw [run_etl_eval_stageOk s h1 h2 h3 h4 h5 h6]
  exact run_etl_fixpoint files (stagedStore files s) h1 h2 h3 h4 h5 h6
    rfl rfl rfl rfl rfl rfl

/-- C7. Phase ordering: in every run, whenever the executed-statement
trace holds a dimension merge at position `j`, all six staging loads
occur at earlier positions; and whenever it holds a fact merge at
position `j`, all four dimension merges (and all six staging loads)
occur at earlier positions — a fact merge never executes before the
dimension phase has completed. -/
theorem run_etl_phase_ordering :
    ∀ (files : EtlFiles) (s : Store) (j : Nat) (e : Ev),
    (run_etl files s).2.1[j]? = some e →
    ((∃ d, e = .mergeDim d) →
      ∀ t : StgTable, ∃ i, i < j ∧
        (run_etl files s).2.1[i]? = some (.stage t)) ∧
    ((∃ f, e = .mergeFact f) →
      (∀ d : DimT, ∃ i, i < j ∧
        (run_etl files s).2.1[i]? = some (.mergeDim d)) ∧
      (∀ t : StgTable, ∃ i, i < j ∧
        (run_etl files s).2.1[i]? = some (.stage t))) := by
  intro files s j e hj
  obtain ⟨n, hn12, htr⟩ := run_etl_trace_prefix files s
  rw [htr] at hj ⊢
  rw [List.getElem?_take] at hj
  split at hj
  case isFalse => cases hj
  rename_i hjn
  have hj12 : j < 12 := lt_of_lt_of_le hjn hn12
  constructor
  · rintro ⟨d, rfl⟩
    have hj6 : 6 ≤ j := by
      interval_cases j <;> simp [canonicalTrace] at hj <;> omega
    intro t
    obtain ⟨i, hi6, hci⟩ := canonical_stage_index t
    refine ⟨i, by omega, ?_⟩
    rw [List.getElem?_take, if_pos (by omega)]
    exact hci
  · rintro ⟨f, rfl⟩
    have hj10 : 10 ≤ j := by
      interval_cases j <;> simp [canonicalTrace] at hj <;> omega
    constructor
    · intro d
      obtain ⟨i, hi6, hi10, hci⟩ := canonical_dim_index d
      refine ⟨i, by omega, ?_⟩
      rw [List.getElem?_take, if_pos (by omega)]
      exact hci
    · intro t
      obtain ⟨i, hi6, hci⟩ := canonical_stage_index t
      refine ⟨i, by omega, ?_⟩
      rw [List.getElem?_take, if_pos (by omega)]
      exact hci

/-- Six well-formed source files (one product row, empty fact files)
whose run completes every phase. -/
def etlFiles0 : EtlFiles :=
  { products := okCsv
    customers := ⟨stgCols .customers, []⟩
    time_dimension := ⟨stgCols .timeDim, []⟩
    stores := ⟨stgCols .stores, []⟩
    sales := ⟨stgCols .sales, []⟩
    inventory := ⟨stgCols .inventory, []⟩ }

/-- C7 witness: in the completed run of `etlFiles0` from the empty
store, the sales fact merge sits at position 10 of the trace, and all
four dimension merges and all six staging loads occur earlier. -/
theorem run_etl_phase_ordering_witness :
    (∀ d : DimT, ∃ i, i < 10 ∧
      (run_etl etlFiles0 emptyStore).2.1[i]? = some (.mergeDim d)) ∧
    (∀ t : StgTable, ∃ i, i < 10 ∧
      (run_etl etlFiles0 emptyStore).2.1[i]? = some (.stage t)) :=
  (run_etl_phase_ordering etlFiles0 emptyStore 10 (.mergeFact .sales)
    (by decide)).2 ⟨.sales, rfl⟩

end Etl
